import Mathlib

/-
  Verification development for the UtopiaTool war-room engine
  (src/utopia_war_room/app.py and src/utopia_war_room/parser.py).

  Free text is embedded as `List Char`.  Python `str` values flowing through
  the parsing pipeline become `List Char`; classification labels that the code
  produces and compares as whole tokens ("success", "Raze", ...) are kept as
  Lean `String`.  Python `None`-able strings become `Option (List Char)`.
  Python integers become `Int` (or `Nat` where the source can only produce
  non-negative values, e.g. regex digit groups).  Each regex of the source is
  hand-compiled to an executable matcher with the same backtracking semantics
  (non-greedy groups try shorter prefixes first, `search` scans positions left
  to right); the matchers are documented with the regex they implement.
-/

namespace Utopia

/-- Characters treated as whitespace by Python str.strip()/str.split() (ASCII range). -/
def isWs (c : Char) : Bool :=
  c = ' ' ∨ c = '\t' ∨ c = '\n' ∨ c = '\r' ∨ c = '\x0b' ∨ c = '\x0c'

/-- ASCII lower-casing of one character, as Python str.lower() acts on ASCII text. -/
def lowerChar (c : Char) : Char :=
  if 65 ≤ c.toNat ∧ c.toNat ≤ 90 then Char.ofNat (c.toNat + 32) else c

/-- ASCII lower-casing of a string. -/
def lowerStr (s : List Char) : List Char := s.map lowerChar

/-- ASCII digit test (regex `\d` on ASCII input). -/
def isDigitCh (c : Char) : Bool := 48 ≤ c.toNat ∧ c.toNat ≤ 57

/-- Python str.strip with an arbitrary character class: drop matching
characters from both ends. -/
def pyStrip (p : Char → Bool) (s : List Char) : List Char :=
  ((s.dropWhile p).reverse.dropWhile p).reverse

/-- Helper for Python str.split(): accumulate the current word (reversed). -/
def splitWsAux : List Char → List Char → List (List Char)
  | [], acc => if acc = [] then [] else [acc.reverse]
  | c :: cs, acc =>
    if isWs c then
      if acc = [] then splitWsAux cs [] else acc.reverse :: splitWsAux cs []
    else splitWsAux cs (c :: acc)

/-- Python str.split() with no separator: split on whitespace runs, no empty parts. -/
def splitWs (s : List Char) : List (List Char) := splitWsAux s []

/-- Python " ".join. -/
def joinSpace : List (List Char) → List Char
  | [] => []
  | [w] => w
  | w :: ws => w ++ ' ' :: joinSpace ws

/-- Exact prefix test. -/
def isPre : List Char → List Char → Bool
  | [], _ => true
  | _ :: _, [] => false
  | a :: as, b :: bs => a = b ∧ isPre as bs

/-- Substring containment, Python `needle in haystack`. -/
def hasSub (pat : List Char) : List Char → Bool
  | [] => pat = []
  | c :: cs => isPre pat (c :: cs) ∨ hasSub pat cs

/-- Case-insensitive prefix test (regex literal under re.IGNORECASE). -/
def ciPre (pat s : List Char) : Bool := isPre (lowerStr pat) (lowerStr s)

/-- Case-insensitive full equality. -/
def ciEq (a b : List Char) : Bool := lowerStr a = lowerStr b

/-- All decompositions `s = pre ++ pat ++ post` at case-insensitive occurrences
of `pat`, ordered left to right; this is the candidate order in which a
backtracking regex engine tries a non-greedy group followed by the literal
`pat`. -/
def splitsOnCi (pat : List Char) : List Char → List (List Char × List Char)
  | [] => if pat.isEmpty then [([], [])] else []
  | c :: cs =>
    (if ciPre pat (c :: cs) then [(([] : List Char), (c :: cs).drop pat.length)] else []) ++
    (splitsOnCi pat cs).map (fun pr => (c :: pr.1, pr.2))

/-- Maximal leading digit run and the remainder (greedy regex `\d+` and what follows). -/
def takeDigits (s : List Char) : List Char × List Char :=
  (s.takeWhile isDigitCh, s.dropWhile isDigitCh)

/-- Python int() on a string of ASCII digits. -/
def digitsToNat (ds : List Char) : Nat :=
  ds.foldl (fun n c => 10 * n + (c.toNat - 48)) 0

/-- The group matched by a regex tail of shape `(?P<g>.+?)\.?$` applied to
`rest`: the shortest non-empty prefix of `rest` after which an optional
single period ends the text.  That is all of `rest`, minus one trailing
period when `rest` has length at least 2 and ends in a period. -/
def tailGroup (rest : List Char) : Option (List Char) :=
  match rest with
  | [] => none
  | _ :: _ =>
    if rest.getLast? = some '.' ∧ 2 ≤ rest.length then some rest.dropLast else some rest

/-- Digit-recursion worker for decimal rendering; the fuel only bounds the
recursion depth (any fuel at least the number of digits is exact, and the
fuel-exhausted base case coincides with the true value for one digit). -/
def natToCharsAux : Nat → Nat → List Char
  | 0, n => [Char.ofNat (48 + n % 10)]
  | fuel + 1, n =>
    if n < 10 then [Char.ofNat (48 + n)]
    else natToCharsAux fuel (n / 10) ++ [Char.ofNat (48 + n % 10)]

/-- Decimal rendering of a natural number, Python str(n) for n ≥ 0. -/
def natToChars (n : Nat) : List Char := natToCharsAux n n

/-- In-place update of the list element at index `i` (the Python mutation of
a dict held in a list). -/
def updateAt {α : Type} (f : α → α) : Nat → List α → List α
  | _, [] => []
  | 0, a :: l => f a :: l
  | i + 1, a :: l => a :: updateAt f i l

/-- Land-impact policy, source function effective_land_impact (app.py).
In war, Raze destroys buildings and does not change land acres. -/
def effectiveLandImpact (acresTransfer targetLossAcres : Int) (attackType : String)
    (isWarContext : Bool) : Int :=
  if isWarContext ∧ attackType = "Raze" then 0
  else if 0 < acresTransfer then acresTransfer else targetLossAcres

theorem length_dropWhile_le {α : Type} (p : α → Bool) (l : List α) :
    (l.dropWhile p).length ≤ l.length := by
  induction l with
  | nil => simp [List.dropWhile]
  | cons c cs ih =>
    simp only [List.dropWhile]
    split
    · exact Nat.le_succ_of_le ih
    · exact Nat.le_refl _

/-- Source regex KINGDOM_COORD_RE = `\(\s*(\d+:\d+)\s*\)`, matched at the
start of `s`; returns the captured `d+:d+` group and the text after the
closing parenthesis. -/
def matchCoordAt (s : List Char) : Option (List Char × List Char) :=
  match s with
  | [] => none
  | c0 :: r1 =>
    if c0 = '(' then
      let r2 := r1.dropWhile isWs
      let d1 := r2.takeWhile isDigitCh
      let r3 := r2.dropWhile isDigitCh
      if d1 = [] then none
      else
        match r3 with
        | [] => none
        | c1 :: r4 =>
          if c1 = ':' then
            let d2 := r4.takeWhile isDigitCh
            let r5 := r4.dropWhile isDigitCh
            if d2 = [] then none
            else
              match r5.dropWhile isWs with
              | [] => none
              | c2 :: r7 => if c2 = ')' then some (d1 ++ ':' :: d2, r7) else none
          else none
    else none

theorem matchCoordAt_shrink (s : List Char) (gr : List Char × List Char)
    (h : matchCoordAt s = some gr) : gr.2.length < s.length := by
  match s with
  | [] => simp [matchCoordAt] at h
  | c0 :: r1 =>
    unfold matchCoordAt at h
    simp only at h
    split at h
    case isFalse => exact absurd h (by simp)
    case isTrue =>
      split at h
      case isTrue => exact absurd h (by simp)
      case isFalse =>
        split at h
        case h_1 => exact absurd h (by simp)
        case h_2 c1 r4 heq3 =>
          split at h
          case isFalse => exact absurd h (by simp)
          case isTrue =>
            split at h
            case isTrue => exact absurd h (by simp)
            case isFalse =>
              split at h
              case h_1 => exact absurd h (by simp)
              case h_2 c2 r7 heq5 =>
                split at h
                case isFalse => exact absurd h (by simp)
                case isTrue =>
                  simp only [Option.some.injEq] at h
                  subst h
                  simp only [List.length_cons]
                  have h2 : (r1.dropWhile isWs).length ≤ r1.length :=
                    length_dropWhile_le _ _
                  have h3 : ((r1.dropWhile isWs).dropWhile isDigitCh).length ≤
                      (r1.dropWhile isWs).length := length_dropWhile_le _ _
                  have h4 : (c1 :: r4).length =
                      ((r1.dropWhile isWs).dropWhile isDigitCh).length := by rw [heq3]
                  have h5 : (r4.dropWhile isDigitCh).length ≤ r4.length :=
                    length_dropWhile_le _ _
                  have h6 : ((r4.dropWhile isDigitCh).dropWhile isWs).length ≤
                      (r4.dropWhile isDigitCh).length := length_dropWhile_le _ _
                  have h7 : (c2 :: r7).length =
                      ((r4.dropWhile isDigitCh).dropWhile isWs).length := by rw [heq5]
                  simp only [List.length_cons] at h4 h7
                  omega

/-- Worker for KINGDOM_COORD_RE.sub with explicit recursion fuel; by
matchCoordAt_shrink the text length strictly drops at every step, so any fuel
of at least the text length makes the worker exact. -/
def coordSubAux : Nat → List Char → List Char
  | 0, s => s
  | _ + 1, [] => []
  | fuel + 1, c :: cs =>
    match matchCoordAt (c :: cs) with
    | some gr => coordSubAux fuel gr.2
    | none => c :: coordSubAux fuel cs

/-- Source regex substitution KINGDOM_COORD_RE.sub: remove every (non-overlapping,
scanned left to right) occurrence of `\(\s*\d+:\d+\s*\)`. -/
def coordSub (s : List Char) : List Char := coordSubAux s.length s

theorem coordSubAux_nil (fuel : Nat) : coordSubAux fuel [] = [] := by
  cases fuel <;> rfl

/-- The coordSub worker is fuel-invariant above the text length. -/
theorem coordSubAux_congr : ∀ (n : Nat) (s : List Char), s.length < n →
    ∀ fuel1 fuel2, s.length ≤ fuel1 → s.length ≤ fuel2 →
    coordSubAux fuel1 s = coordSubAux fuel2 s := by
  intro n
  induction n with
  | zero => intro s h; omega
  | succ n ih =>
    intro s hs fuel1 fuel2 h1 h2
    match s with
    | [] => rw [coordSubAux_nil, coordSubAux_nil]
    | c :: cs =>
      simp only [List.length_cons] at hs h1 h2
      match fuel1, fuel2 with
      | g1 + 1, g2 + 1 =>
        simp only [coordSubAux]
        cases h : matchCoordAt (c :: cs) with
        | some gr =>
          have hlt := matchCoordAt_shrink _ _ h
          simp only [List.length_cons] at hlt
          exact ih gr.2 (by omega) g1 g2 (by omega) (by omega)
        | none =>
          rw [ih cs (by omega) g1 g2 (by omega) (by omega)]

/-- The recursion equation of coordSub on a cons cell. -/
theorem coordSub_cons (c : Char) (cs : List Char) :
    coordSub (c :: cs) =
      (match matchCoordAt (c :: cs) with
       | some gr => coordSub gr.2
       | Option.none => c :: coordSub cs) := by
  show coordSubAux (c :: cs).length (c :: cs) = _
  simp only [List.length_cons, coordSubAux]
  cases h : matchCoordAt (c :: cs) with
  | some gr =>
    have hlt := matchCoordAt_shrink _ _ h
    simp only [List.length_cons] at hlt
    exact coordSubAux_congr (cs.length + 1) gr.2 (by omega) _ _ (by omega) (by omega)
  | none => rfl

/-- Leftmost occurrence of KINGDOM_COORD_RE (re.search): the captured group
of the first coordinate annotation, source function extract_kingdom minus the
None guard. -/
def extractKingdomChars : List Char → Option (List Char)
  | [] => none
  | c :: cs =>
    match matchCoordAt (c :: cs) with
    | some gr => some gr.1
    | none => extractKingdomChars cs

/-- Source function extract_kingdom (app.py): None/empty input gives None,
else the first `(d+:d+)` coordinate group. -/
def extractKingdom (raw : List Char) : Option (List Char) :=
  if raw = [] then none else extractKingdomChars raw

/-- Source regex LEADING_SLOT_RE = `^\d+\s*-\s*`, substituted once at the
start of the string (re.sub with an anchored pattern removes at most the one
leading match). -/
def slotSub (s : List Char) : List Char :=
  let ds := s.takeWhile isDigitCh
  let r1 := s.dropWhile isDigitCh
  if ds = [] then s
  else
    match r1.dropWhile isWs with
    | '-' :: r3 => r3.dropWhile isWs
    | _ => s

/-- Source function normalize_party (app.py): strip whitespace and periods,
drop one leading slot prefix, delete coordinate annotations, collapse inner
whitespace, trim stray spaces and hyphens; empty results become None. -/
def normalizeParty (raw : List Char) : Option (List Char) :=
  if raw = [] then none
  else
    let c1 := pyStrip (fun c => c = '.') (pyStrip isWs raw)
    let c2 := coordSub (slotSub c1)
    let c3 := pyStrip (fun c => c = ' ' ∨ c = '-') (joinSpace (splitWs c2))
    if c3 = [] then none else some c3

/-- Lift of normalize_party to an optional argument, as the Python function
treats None and the empty string alike (both falsy). -/
def normalizePartyOpt : Option (List Char) → Option (List Char)
  | none => none
  | some s => normalizeParty s

/-- Source function classify_attack_type (app.py): keyword-priority ladder on
the lower-cased, stripped summary. -/
def classifyAttackType (summary : List Char) : String :=
  let lower := lowerStr (pyStrip isWs summary)
  if hasSub "ambushed armies from".toList lower ∨ hasSub "recaptured".toList lower then "Ambush"
  else if hasSub "massacre".toList lower then "Massacre"
  else if hasSub "learned".toList lower ∨ hasSub "learn attack".toList lower then "Learn"
  else if hasSub "plundered".toList lower ∨ hasSub "pillaged".toList lower then "Plunder"
  else if hasSub "razed".toList lower then "Raze"
  else if hasSub "conquest".toList lower ∨ hasSub "conquered".toList lower then "Conquest"
  else if hasSub "captured".toList lower ∨ hasSub "invaded".toList lower then "Traditional March"
  else "Other"

/-- Matcher for ATTACK_SUCCESS_PATTERNS[0],
`^(?P<actor>.+?) captured (?P<acres>\d+) acres of land from (?P<target>.+?)\.?$`
(re.IGNORECASE); also used for ATTACK_RECAPTURE_PATTERN with its own literal. -/
def matchCapturedFrom (verb : List Char) (text : List Char) :
    Option (List Char × Nat × List Char) :=
  (splitsOnCi verb text).findSome? fun pr =>
    if pr.1 = [] then none
    else
      let ds := pr.2.takeWhile isDigitCh
      let r1 := pr.2.dropWhile isDigitCh
      if ds = [] then none
      else if ciPre " acres of land from ".toList r1 then
        match tailGroup (r1.drop " acres of land from ".toList.length) with
        | some tgt => some (pr.1, digitsToNat ds, tgt)
        | none => none
      else none

/-- Matcher for ATTACK_SUCCESS_PATTERNS[1],
`^(?P<actor>.+?) invaded (?P<target>.+?) and captured (?P<acres>\d+) acres of land\.?$`;
also used for ATTACK_INVADE_RAZE_PATTERN with literal " and razed ". -/
def matchInvadedTook (midLit : List Char) (text : List Char) :
    Option (List Char × Nat × List Char) :=
  (splitsOnCi " invaded ".toList text).findSome? fun pr =>
    if pr.1 = [] then none
    else
      (splitsOnCi midLit pr.2).findSome? fun qr =>
        if qr.1 = [] then none
        else
          let ds := qr.2.takeWhile isDigitCh
          let r1 := qr.2.dropWhile isDigitCh
          if ds = [] then none
          else if ciEq r1 " acres of land".toList ∨ ciEq r1 " acres of land.".toList then
            some (pr.1, digitsToNat ds, qr.1)
          else none

/-- Matcher for ATTACK_SUCCESS_PATTERNS[2],
`^(?P<actor>.+?) ambushed armies from (?P<target>.+?) and took (?P<acres>\d+) acres of land\.?$`. -/
def matchAmbushed (text : List Char) : Option (List Char × Nat × List Char) :=
  (splitsOnCi " ambushed armies from ".toList text).findSome? fun pr =>
    if pr.1 = [] then none
    else
      (splitsOnCi " and took ".toList pr.2).findSome? fun qr =>
        if qr.1 = [] then none
        else
          let ds := qr.2.takeWhile isDigitCh
          let r1 := qr.2.dropWhile isDigitCh
          if ds = [] then none
          else if ciEq r1 " acres of land".toList ∨ ciEq r1 " acres of land.".toList then
            some (pr.1, digitsToNat ds, qr.1)
          else none

/-- Matcher for ATTACK_RAZE_TARGET_PATTERN,
`^(?P<actor>.+?) razed (?P<acres>\d+) acres of (?P<target>\d+\s*-\s*.+?)\.?$`. -/
def matchRazeTarget (text : List Char) : Option (List Char × Nat × List Char) :=
  (splitsOnCi " razed ".toList text).findSome? fun pr =>
    if pr.1 = [] then none
    else
      let ds := pr.2.takeWhile isDigitCh
      let r1 := pr.2.dropWhile isDigitCh
      if ds = [] then none
      else if ciPre " acres of ".toList r1 then
        let r2 := r1.drop " acres of ".toList.length
        let gds := r2.takeWhile isDigitCh
        let r3 := r2.dropWhile isDigitCh
        if gds = [] then none
        else
          let ws1 := r3.takeWhile isWs
          match r3.dropWhile isWs with
          | '-' :: r5 =>
            let ws2 := r5.takeWhile isWs
            let body := r5.dropWhile isWs
            if body ≠ [] then
              match tailGroup body with
              | some tb => some (pr.1, digitsToNat ds, gds ++ ws1 ++ '-' :: (ws2 ++ tb))
              | none => none
            else if ws2 ≠ [] then
              some (pr.1, digitsToNat ds, gds ++ ws1 ++ '-' :: ws2)
            else none
          | _ => none
      else none

/-- Matcher for ATTACK_FAILED_PATTERNS[0],
`^(?P<actor>.+?) attempted an invasion of (?P<target>.+?), but was repelled\.?$`. -/
def matchRepelled (text : List Char) : Option (List Char × List Char) :=
  (splitsOnCi " attempted an invasion of ".toList text).findSome? fun pr =>
    if pr.1 = [] then none
    else
      (splitsOnCi ", but was repelled".toList pr.2).findSome? fun qr =>
        if qr.1 = [] then none
        else if qr.2 = [] ∨ qr.2 = ['.'] then some (pr.1, qr.1) else none

/-- Matcher for a two-party pattern `^(?P<actor>.+?)LIT(?P<target>.+?)\.?$`
(ATTACK_FAILED_PATTERNS[1] and the three ATTACK_SUCCESS_NO_ACRES_PATTERNS). -/
def matchActorLitTarget (lit : List Char) (text : List Char) :
    Option (List Char × List Char) :=
  (splitsOnCi lit text).findSome? fun pr =>
    if pr.1 = [] then none
    else
      match tailGroup pr.2 with
      | some tgt => some (pr.1, tgt)
      | none => none

/-- Structured result of parse_attack_summary. -/
structure AttackParse where
  outcome : String
  acres : Nat
  targetLossAcres : Nat
  actorRaw : Option (List Char)
  targetRaw : Option (List Char)
  attackType : String
deriving Repr, DecidableEq

/-- Source function parse_attack_summary (app.py): the ordered template
cascade over the stripped summary text. -/
def parseAttackSummary (summary : List Char) : AttackParse :=
  let text := pyStrip isWs summary
  let atype := classifyAttackType text
  match matchCapturedFrom " captured ".toList text with
  | some (a, n, t) => ⟨"success", n, n, some a, some t, atype⟩
  | none =>
  match matchInvadedTook " and captured ".toList text with
  | some (a, n, t) => ⟨"success", n, n, some a, some t, atype⟩
  | none =>
  match matchAmbushed text with
  | some (a, n, t) => ⟨"success", n, n, some a, some t, atype⟩
  | none =>
  match matchCapturedFrom " recaptured ".toList text with
  | some (a, n, t) => ⟨"success", n, n, some a, some t, atype⟩
  | none =>
  match matchRazeTarget text with
  | some (a, n, t) => ⟨"success", 0, n, some a, some t, atype⟩
  | none =>
  match matchInvadedTook " and razed ".toList text with
  | some (a, n, t) => ⟨"success", 0, n, some a, some t, atype⟩
  | none =>
  match matchRepelled text with
  | some (a, t) => ⟨"failed", 0, 0, some a, some t, atype⟩
  | none =>
  match matchActorLitTarget " attempted to invade ".toList text with
  | some (a, t) => ⟨"failed", 0, 0, some a, some t, atype⟩
  | none =>
  match matchActorLitTarget " invaded and pillaged ".toList text with
  | some (a, t) => ⟨"success", 0, 0, some a, some t, atype⟩
  | none =>
  match matchActorLitTarget " attacked and pillaged the lands of ".toList text with
  | some (a, t) => ⟨"success", 0, 0, some a, some t, atype⟩
  | none =>
  match matchActorLitTarget " learned ".toList text with
  | some (a, t) => ⟨"success", 0, 0, some a, some t, atype⟩
  | none => ⟨"unknown", 0, 0, none, none, atype⟩

/-- Matcher for AID_RE,
`^(?P<actor>.+?) has sent an aid shipment to (?P<target>.+?)\.$` on the
stripped summary; source function parse_aid_summary. -/
def parseAidSummary (summary : List Char) : Option (List Char × List Char) :=
  let text := pyStrip isWs summary
  (splitsOnCi " has sent an aid shipment to ".toList text).findSome? fun pr =>
    if pr.1 = [] then none
    else if pr.2.getLast? = some '.' ∧ 2 ≤ pr.2.length then some (pr.1, pr.2.dropLast)
    else none

/-- Matcher for WAR_DECLARE_PATTERNS[0],
`^We have declared WAR on (?P<opponent>.+?)!$`. -/
def matchDeclaredOn (text : List Char) : Option (List Char) :=
  if ciPre "We have declared WAR on ".toList text then
    let r := text.drop "We have declared WAR on ".toList.length
    if r.getLast? = some '!' ∧ 2 ≤ r.length then some r.dropLast else none
  else none

/-- Matcher for WAR_DECLARE_PATTERNS[1],
`^(?P<opponent>.+?) has declared WAR on us!?$`. -/
def matchDeclaredBy (text : List Char) : Option (List Char) :=
  (splitsOnCi " has declared WAR on us".toList text).findSome? fun pr =>
    if pr.1 = [] then none
    else if pr.2 = [] ∨ pr.2 = ['!'] then some pr.1 else none

/-- The opponent group of `LIT(?P<opponent>.+?)(?:\.|!|$)` taken right after
a matched literal: shortest non-empty prefix of `rest` ending at the first
period, exclamation mark, or end of text. -/
def oppUntilStop (rest : List Char) : Option (List Char) :=
  match rest with
  | [] => none
  | c :: cs => some (c :: cs.takeWhile (fun x => ¬ (x = '.' ∨ x = '!')))

/-- re.search of `LIT(?P<opponent>.+?)(?:\.|!|$)` over `text`
(WAR_END_OPPONENT_PATTERNS[0] and [1]). -/
def searchOppAfter (lit : List Char) (text : List Char) : Option (List Char) :=
  (splitsOnCi lit text).findSome? fun pr => oppUntilStop pr.2

/-- Terminator test of WAR_END_OPPONENT_PATTERNS[2]:
`(?: has finally ended| has ended|\.|!|$)`. -/
def stopWarWith (r : List Char) : Bool :=
  ciPre " has finally ended".toList r || ciPre " has ended".toList r ||
  (match r with
   | [] => true
   | c :: _ => decide (c = '.' ∨ c = '!'))

/-- Characters of the opponent group consumed before the first terminator of
WAR_END_OPPONENT_PATTERNS[2]. -/
def takeUntilStopWarWith : List Char → List Char
  | [] => []
  | c :: cs => if stopWarWith (c :: cs) then [] else c :: takeUntilStopWarWith cs

/-- re.search of WAR_END_OPPONENT_PATTERNS[2],
`war with (?P<opponent>.+?)(?: has finally ended| has ended|\.|!|$)`. -/
def searchWarWith (text : List Char) : Option (List Char) :=
  (splitsOnCi "war with ".toList text).findSome? fun pr =>
    match pr.2 with
    | [] => none
    | c :: cs => some (c :: takeUntilStopWarWith cs)

/-- Source function extract_war_opponent (app.py): WAR_DECLARE_PATTERNS are
tried with re.match, then WAR_END_OPPONENT_PATTERNS with re.search; the
matched group is stripped. -/
def extractWarOpponent (summary : List Char) : Option (List Char) :=
  let text := pyStrip isWs summary
  match matchDeclaredOn text with
  | some opp => some (pyStrip isWs opp)
  | none =>
  match matchDeclaredBy text with
  | some opp => some (pyStrip isWs opp)
  | none =>
  match searchOppAfter "withdrawn from war with ".toList text with
  | some opp => some (pyStrip isWs opp)
  | none =>
  match searchOppAfter "won the war with ".toList text with
  | some opp => some (pyStrip isWs opp)
  | none =>
  match searchWarWith text with
  | some opp => some (pyStrip isWs opp)
  | none => none

/-- Matcher for POST_WAR_START_RE,
`^Our kingdom is now in a post-war period which will expire on (?P<expiry>.+?)\.$`,
applied (unstripped) with re.match; returns the expiry group. -/
def matchPostwarExpiry (summary : List Char) : Option (List Char) :=
  if ciPre "Our kingdom is now in a post-war period which will expire on ".toList summary then
    let r := summary.drop "Our kingdom is now in a post-war period which will expire on ".toList.length
    if r.getLast? = some '.' ∧ 2 ≤ r.length then some r.dropLast else none
  else none

/-- Matcher for POST_WAR_END_RE, `^Our post-war period has ended!?$`. -/
def matchPostwarEnd (summary : List Char) : Bool :=
  ciEq summary "Our post-war period has ended".toList ∨
  ciEq summary "Our post-war period has ended!".toList

/-- Source function classify_war_event (app.py). -/
def classifyWarEvent (summary : List Char) : Option String :=
  let lower := lowerStr summary
  if (matchPostwarExpiry summary).isSome then some "postwar_start"
  else if matchPostwarEnd summary then some "postwar_end"
  else if hasSub "declared war".toList lower then some "declare"
  else if hasSub "war".toList lower ∧
      (hasSub "withdrawn from war".toList lower ∨
       hasSub "won the war".toList lower ∨
       hasSub "war has finally ended".toList lower ∨
       (hasSub "war with".toList lower ∧ hasSub "has ended".toList lower)) then
    some "end"
  else none

/-- Source function classify_war_result (app.py). -/
def classifyWarResult (summary : List Char) : String :=
  let lower := lowerStr summary
  if hasSub "failed war".toList lower ∨ hasSub "unable to achieve victory".toList lower ∨
      hasSub "withdrawn from war".toList lower then "failed"
  else if hasSub "won the war".toList lower ∨ hasSub "achieved victory".toList lower then
    "victory"
  else if hasSub "mutual peace".toList lower ∨ hasSub "ended in peace".toList lower then
    "peace"
  else if hasSub "war has finally ended".toList lower ∨
      (hasSub "war with".toList lower ∧ hasSub "ended".toList lower) then "ended"
  else "ended"

/-- Month-name table MONTH_INDEX (app.py). -/
def MONTH_INDEX : List (String × Nat) :=
  [("January", 1), ("February", 2), ("March", 3), ("April", 4), ("May", 5),
   ("June", 6), ("July", 7), ("August", 8), ("September", 9), ("October", 10),
   ("November", 11), ("December", 12)]

/-- Sortable in-game day key: (year, month index, day). -/
abbrev DayKey := Int × Int × Int

/-- Source function parse_event_day (app.py) over EVENT_DAY_RE,
`^(January|...|December)\s+(\d+)\s+of\s+YR(\d+)$` (case sensitive), applied
to the stripped text; None on no match. -/
def parseEventDay (text : List Char) : Option DayKey :=
  let t := pyStrip isWs text
  MONTH_INDEX.findSome? fun m =>
    if isPre m.1.toList t then
      let r1 := t.drop m.1.toList.length
      let ws1 := r1.takeWhile isWs
      let r2 := r1.dropWhile isWs
      if ws1 = [] then none
      else
        let ds := r2.takeWhile isDigitCh
        let r3 := r2.dropWhile isDigitCh
        if ds = [] then none
        else
          let ws2 := r3.takeWhile isWs
          let r4 := r3.dropWhile isWs
          if ws2 = [] then none
          else if isPre "of".toList r4 then
            let r5 := r4.drop 2
            let ws3 := r5.takeWhile isWs
            let r6 := r5.dropWhile isWs
            if ws3 = [] then none
            else if isPre "YR".toList r6 then
              let ys := (r6.drop 2).takeWhile isDigitCh
              let r7 := (r6.drop 2).dropWhile isDigitCh
              if ys = [] ∨ r7 ≠ [] then none
              else some ((digitsToNat ys : Int), (m.2 : Int), (digitsToNat ds : Int))
            else none
          else none
    else none

/-- Python tuple comparison on day keys (lexicographic less-than). -/
def dayLt (a b : DayKey) : Bool :=
  a.1 < b.1 ∨ (a.1 = b.1 ∧ (a.2.1 < b.2.1 ∨ (a.2.1 = b.2.1 ∧ a.2.2 < b.2.2)))

/-- Python tuple comparison on day keys (lexicographic less-or-equal). -/
def dayLe (a b : DayKey) : Bool :=
  a.1 < b.1 ∨ (a.1 = b.1 ∧ (a.2.1 < b.2.1 ∨ (a.2.1 = b.2.1 ∧ a.2.2 ≤ b.2.2)))

/-- Source function operation_key (app.py): lower-case and collapse whitespace. -/
def operationKey (name : List Char) : List Char :=
  joinSpace (splitWs (lowerStr (pyStrip isWs name)))

/-- Apostrophe character, spelled by code point. -/
def apos : Char := Char.ofNat 39

/-- Source set OP_SUPPORT_NAMES (app.py). -/
def OP_SUPPORT_NAMES : List (List Char) :=
  ["minor protection".toList, "greater protection".toList, "magic shield".toList,
   "fertile lands".toList, "inspire army".toList, "fanaticism".toList,
   "bloodlust".toList, "patriotism".toList, "town watch".toList,
   "quick feet".toList, "aggression".toList, "war spoils".toList,
   "nature".toList ++ apos :: "s blessing".toList, "builders boon".toList,
   "fountain of knowledge".toList, "love and peace".toList, "mystic aura".toList,
   "reflect magic".toList, "animate dead".toList, "ghost workers".toList,
   "miner".toList ++ apos :: "s mystique".toList, "mind focus".toList,
   "mist".toList, "revelation".toList,
   "mage".toList ++ apos :: "s fury".toList, "guile".toList, "invisibility".toList]

/-- Source tuple OP_INTEL_KEYWORDS (app.py). -/
def OP_INTEL_KEYWORDS : List (List Char) :=
  ["spy".toList, "survey".toList, "crystal ball".toList, "revelation".toList,
   "shadow light".toList, "illuminate shadows".toList, "infiltrate".toList]

/-- Source function classify_operation_kind (app.py): self-target (both keys
non-empty and equal) is support, then the support-name set, then the intel
keyword list, else hostile. -/
def classifyOperationKind (opName actor target : List Char) : String :=
  let opKey := operationKey opName
  let actorKey := operationKey actor
  let targetKey := operationKey target
  if actorKey ≠ [] ∧ targetKey ≠ [] ∧ actorKey = targetKey then "support"
  else if opKey ∈ OP_SUPPORT_NAMES then "support"
  else if OP_INTEL_KEYWORDS.any (fun token => hasSub token opKey) then "intel"
  else "hostile"

/-- Python int() conversion domain for intel result codes: the values the
parser can see in that field. -/
inductive PyVal where
  | none : PyVal
  | bool : Bool → PyVal
  | int : Int → PyVal
  | str : List Char → PyVal
deriving Repr, DecidableEq

/-- Python int(value) as a partial function on PyVal: identity on ints,
0/1 on bools, base-10 parse of an optionally signed digit string after
stripping whitespace; None and unparsable strings raise (give none). -/
def pyToInt : PyVal → Option Int
  | PyVal.none => Option.none
  | PyVal.bool b => some (if b then 1 else 0)
  | PyVal.int n => some n
  | PyVal.str s =>
    let t := pyStrip isWs s
    match t with
    | '-' :: ds => if ds ≠ [] ∧ ds.all isDigitCh then some (-(digitsToNat ds : Int)) else Option.none
    | '+' :: ds => if ds ≠ [] ∧ ds.all isDigitCh then some ((digitsToNat ds : Int)) else Option.none
    | ds => if ds ≠ [] ∧ ds.all isDigitCh then some ((digitsToNat ds : Int)) else Option.none

/-- Source function intel_result_label (parser.py): int(value) mapped to a
label, any conversion failure giving "unknown". -/
def intelResultLabel (value : PyVal) : String :=
  match pyToInt value with
  | Option.none => "unknown"
  | some num =>
    if num = 1 then "success"
    else if num = 0 then "failed"
    else if num = 2 then "partial"
    else "unknown"

/-- One war-related event as collected by build_dashboard_analytics and
consumed by build_war_rows: original row id, raw summary, raw day text and
the parsed day key (None when unparseable). -/
structure WarEvent where
  rowId : Nat
  summary : List Char
  eventTimeText : List Char
  dayKey : Option DayKey
deriving Repr, DecidableEq

/-- One reconstructed War record (the dict built by build_war_rows).  The
display field war_label is filled by the final formatting pass. -/
structure WarRow where
  warId : List Char
  opponentName : List Char
  opponentKingdom : Option (List Char)
  startDay : List Char
  startKey : Option DayKey
  endDay : List Char
  endKey : Option DayKey
  result : String
  status : String
  endSummary : List Char
  postwarExpires : List Char
  postwarEndDay : List Char
  hitsFor : Int
  hitsAgainst : Int
  acresFor : Int
  acresAgainst : Int
  netAcres : Int
  warLabel : List Char
deriving Repr, DecidableEq

/-- One attack record as appended by build_dashboard_analytics. -/
structure AttackRecord where
  rowId : Nat
  dayKey : Option DayKey
  actorKingdom : Option (List Char)
  targetKingdom : Option (List Char)
  actorName : List Char
  targetName : List Char
  outcome : String
  attackType : String
  acres : Int
  targetLossAcres : Int
deriving Repr, DecidableEq

/-- Mutable state of the build_war_rows event loop: the accumulated `wars`
list, the open set (indices into `wars`, in opening order, standing for the
Python list of shared dict references) and the war sequence counter. -/
structure WarState where
  wars : List WarRow
  openIdx : List Nat
  seq : Nat
deriving Repr, DecidableEq

/-- Initial build_war_rows state. -/
def initWarState : WarState := ⟨[], [], 0⟩

/-- The per-war test of find_open_war: exact opponent-kingdom match (when the
event carries a kingdom), else case-insensitive opponent-name match (when the
event carries a name). -/
def warMatches (wars : List WarRow) (k n : Option (List Char)) (i : Nat) : Bool :=
  match wars[i]? with
  | some w =>
    (match k with
     | some kv => decide (w.opponentKingdom = some kv)
     | Option.none => false) ||
    (match n with
     | some nv => decide (lowerStr w.opponentName = lowerStr nv)
     | Option.none => false)
  | Option.none => false

/-- Source function find_open_war (inner function of build_war_rows): scan
the open wars most-recently-opened first, return the first one matching by
kingdom or name; otherwise fall back to the most recently opened war when any
war is open; None when no war is open. -/
def findOpenWar (wars : List WarRow) (openIdx : List Nat) (k n : Option (List Char)) :
    Option Nat :=
  match openIdx.reverse.find? (warMatches wars k n) with
  | some i => some i
  | Option.none => openIdx.getLast?

/-- Index of the last list element satisfying `p` (Python
`for x in reversed(xs): if p(x): ... break`). -/
def lastIdxSat (p : WarRow → Bool) : List WarRow → Option Nat
  | [] => Option.none
  | w :: ws =>
    match lastIdxSat p ws with
    | some i => some (i + 1)
    | Option.none => if p w then some 0 else Option.none

/-- The fresh War record opened by a declare event (the dict literal of the
declare branch of build_war_rows). -/
def declareRow (s : WarState) (e : WarEvent) : WarRow :=
  let raw := extractWarOpponent e.summary
  let oppName :=
    match normalizePartyOpt raw with
    | some nm => nm
    | Option.none =>
      match raw with
      | some r => if r = [] then "Unknown Kingdom".toList else r
      | Option.none => "Unknown Kingdom".toList
  let oppK := match raw with
    | some r => extractKingdom r
    | Option.none => Option.none
  { warId := natToChars (s.seq + 1), opponentName := oppName,
    opponentKingdom := oppK, startDay := e.eventTimeText, startKey := e.dayKey,
    endDay := [], endKey := Option.none, result := "active", status := "active",
    endSummary := [], postwarExpires := [], postwarEndDay := [],
    hitsFor := 0, hitsAgainst := 0, acresFor := 0, acresAgainst := 0,
    netAcres := 0, warLabel := [] }

/-- The in-place mutation applied to the resolved open War by an end event. -/
def closeRow (e : WarEvent) (w : WarRow) : WarRow :=
  { w with
    endDay := e.eventTimeText, endKey := e.dayKey, endSummary := e.summary,
    result := classifyWarResult e.summary, status := "closed" }

/-- The in-place mutation of a postwar_start event. -/
def pwStartFn (expiry : List Char) (w : WarRow) : WarRow :=
  { w with postwarExpires := expiry }

/-- The in-place mutation of a postwar_end event. -/
def pwEndFn (dayText : List Char) (w : WarRow) : WarRow :=
  { w with postwarEndDay := dayText }

/-- The normalized opponent name an end event passes to find_open_war
(None when the raw opponent is missing or falsy). -/
def endOppName (e : WarEvent) : Option (List Char) :=
  match extractWarOpponent e.summary with
  | some r => if r = [] then Option.none else normalizeParty r
  | Option.none => Option.none

/-- The opponent kingdom an end event passes to find_open_war. -/
def endOppKingdom (e : WarEvent) : Option (List Char) :=
  match extractWarOpponent e.summary with
  | some r => if r = [] then Option.none else extractKingdom r
  | Option.none => Option.none

/-- One iteration of the build_war_rows event loop. -/
def warStep (s : WarState) (e : WarEvent) : WarState :=
  match classifyWarEvent e.summary with
  | Option.none => s
  | some etype =>
    if etype = "declare" then
      { wars := s.wars ++ [declareRow s e], openIdx := s.openIdx ++ [s.wars.length],
        seq := s.seq + 1 }
    else if etype = "end" then
      match findOpenWar s.wars s.openIdx (endOppKingdom e) (endOppName e) with
      | Option.none => s
      | some i =>
        { s with
          wars := updateAt (closeRow e) i s.wars,
          openIdx := s.openIdx.filter (fun j => j ≠ i) }
    else if etype = "postwar_start" then
      match matchPostwarExpiry e.summary with
      | Option.none => s
      | some expiryRaw =>
        match lastIdxSat (fun w => w.status = "closed" ∧ w.postwarExpires = []) s.wars with
        | some i =>
          { s with wars := updateAt (pwStartFn (pyStrip isWs expiryRaw)) i s.wars }
        | Option.none => s
    else if etype = "postwar_end" then
      match lastIdxSat (fun w => w.postwarExpires ≠ [] ∧ w.postwarEndDay = []) s.wars with
      | some i =>
        { s with wars := updateAt (pwEndFn e.eventTimeText) i s.wars }
      | Option.none => s
    else s

/-- Stable insertion of `a` before the first element `b` with `le a b` true. -/
def insertLe {α : Type} (le : α → α → Bool) (a : α) : List α → List α
  | [] => [a]
  | b :: bs => if le a b then a :: b :: bs else b :: insertLe le a bs

/-- Stable sort by a total boolean preorder `le` (insertion sort, processing
from the right, placing earlier input elements before equal later ones).
Python list.sort is stable, so for a total `le` its output is exactly this
one; reverse=True sorting is the same with the reversed preorder. -/
def insertionSortBy {α : Type} (le : α → α → Bool) : List α → List α
  | [] => []
  | a :: l => insertLe le a (insertionSortBy le l)

/-- Sort key of the build_war_rows event ordering:
(day_key or (9999, 99, 99), row_id). -/
def eventSortKey (e : WarEvent) : DayKey × Nat := (e.dayKey.getD (9999, 99, 99), e.rowId)

/-- Python stable ascending comparison on the event sort key. -/
def eventLe (a b : WarEvent) : Bool :=
  dayLt (eventSortKey a).1 (eventSortKey b).1 ||
  (decide ((eventSortKey a).1 = (eventSortKey b).1) && decide ((eventSortKey a).2 ≤ (eventSortKey b).2))

/-- Inner predicate day_in_war of build_war_rows. -/
def dayInWar (dayKey : Option DayKey) (w : WarRow) : Bool :=
  match dayKey, w.startKey with
  | some dk, some sk =>
    if dayLt dk sk then false
    else
      match w.endKey with
      | some ek => !(dayLt ek dk)
      | Option.none => true
  | _, _ => false

/-- One inner iteration of the attack attribution loop of build_war_rows. -/
def attackFold (hk oppK : List Char) (w : WarRow) (acc : WarRow) (a : AttackRecord) : WarRow :=
  if ¬ dayInWar a.dayKey w then acc
  else
    let impact := effectiveLandImpact a.acres a.targetLossAcres a.attackType true
    if a.actorKingdom = some hk ∧ a.targetKingdom = some oppK then
      let acc2 := { acc with hitsFor := acc.hitsFor + 1 }
      if a.outcome = "success" ∧ 0 < impact then
        { acc2 with acresFor := acc2.acresFor + impact }
      else acc2
    else if a.actorKingdom = some oppK ∧ a.targetKingdom = some hk then
      let acc2 := { acc with hitsAgainst := acc.hitsAgainst + 1 }
      if a.outcome = "success" ∧ 0 < impact then
        { acc2 with acresAgainst := acc2.acresAgainst + impact }
      else acc2
    else acc

/-- The per-war attack attribution pass of build_war_rows (runs only when a
home kingdom is known and the war has an opponent kingdom). -/
def attributeWar (hk : List Char) (attacks : List AttackRecord) (w : WarRow) : WarRow :=
  match w.opponentKingdom with
  | Option.none => w
  | some oppK =>
    let w2 := attacks.foldl (attackFold hk oppK w) w
    { w2 with netAcres := w2.acresFor - w2.acresAgainst }

/-- The final formatting pass of build_war_rows: active wars get result
"active", empty display fields become "-", and the war_label is rendered. -/
def finalizeWar (w : WarRow) : WarRow :=
  let w1 := if w.status = "active" then { w with result := "active" } else w
  let w2 := if w1.endDay = [] then { w1 with endDay := "-".toList } else w1
  let w3 := if w2.postwarExpires = [] then { w2 with postwarExpires := "-".toList } else w2
  let w4 := if w3.postwarEndDay = [] then { w3 with postwarEndDay := "-".toList } else w3
  { w4 with warLabel :=
      w4.startDay ++ " -> ".toList ++ w4.endDay ++ " vs ".toList ++ w4.opponentName ++
      " (".toList ++ w4.opponentKingdom.getD "?".toList ++ ") [".toList ++
      w4.result.toList ++ "]".toList }

/-- Python stable descending comparison on start_key (missing keys sort as
(-1, -1, -1)). -/
def warGe (a b : WarRow) : Bool :=
  dayLe (b.startKey.getD (-1, -1, -1)) (a.startKey.getD (-1, -1, -1))

/-- Source function build_war_rows (app.py): order the war events by
(day key, row id), fold the war state machine over them, attribute attacks
when a (truthy) home kingdom is known, format, and sort newest first. -/
def buildWarRows (warEvents : List WarEvent) (attacks : List AttackRecord)
    (homeKingdom : Option (List Char)) : List WarRow :=
  let ordered := insertionSortBy eventLe warEvents
  let st := ordered.foldl warStep initWarState
  let wars :=
    match homeKingdom with
    | some hk => if hk = [] then st.wars else st.wars.map (attributeWar hk attacks)
    | Option.none => st.wars
  insertionSortBy warGe (wars.map finalizeWar)

/-- One tracked province row (the dict created by ensure_party).  The three
derived display fields net, activity and success_rate, recomputed from these
counters after the fold, are not part of the war-row data flow. -/
structure Party where
  name : List Char
  kingdom : Option (List Char)
  gains : Int
  losses : Int
  attacksSent : Int
  attacksReceived : Int
  successfulAttacks : Int
  failedAttacks : Int
  aidSent : Int
  aidReceived : Int
deriving Repr, DecidableEq

/-- Fresh province record of ensure_party. -/
def defaultParty (name : List Char) : Party := ⟨name, Option.none, 0, 0, 0, 0, 0, 0, 0, 0⟩

/-- Lookup in the insertion-ordered province map. -/
def lookupParty (m : List (List Char × Party)) (name : List Char) : Option Party :=
  (m.find? (fun pr => pr.1 = name)).map Prod.snd

/-- In-place update of one province record (the Python dicts are shared
references, so an update through any alias is an update of the map entry). -/
def updateParty (m : List (List Char × Party)) (name : List Char) (f : Party → Party) :
    List (List Char × Party) :=
  m.map (fun pr => if pr.1 = name then (pr.1, f pr.2) else pr)

/-- Source function ensure_party (app.py): normalize the raw name, create the
row on first sight, learn the kingdom first-seen-wins; returns the updated
map and the normalized name (None for unusable input). -/
def ensureParty (m : List (List Char × Party)) (raw : List Char) :
    List (List Char × Party) × Option (List Char) :=
  match normalizeParty raw with
  | Option.none => (m, Option.none)
  | some name =>
    let m1 := if (lookupParty m name).isSome then m else m ++ [(name, defaultParty name)]
    let m2 :=
      match extractKingdom raw with
      | some kd =>
        updateParty m1 name
          (fun p => if p.kingdom = Option.none then { p with kingdom := some kd } else p)
      | Option.none => m1
    (m2, some name)

/-- Increment of the kingdom_mentions defaultdict counter. -/
def bumpMention (m : List (List Char × Nat)) (kd : List Char) : List (List Char × Nat) :=
  if (m.find? (fun pr => pr.1 = kd)).isSome then
    m.map (fun pr => if pr.1 = kd then (pr.1, pr.2 + 1) else pr)
  else m ++ [(kd, 1)]

/-- One input row of build_dashboard_analytics (columns of kd_news_events;
NULL text columns arrive as empty, matching the `or ""` guards). -/
structure EventRow where
  id : Nat
  eventTimeText : List Char
  category : List Char
  actor : List Char
  target : List Char
  summary : List Char
deriving Repr, DecidableEq

/-- State of the build_dashboard_analytics row loop restricted to the data
that flows into war rows: provinces, kingdom mentions, attack records, war
events and the scalar tallies of the attack/aid branches. -/
structure DashState where
  provinces : List (List Char × Party)
  mentions : List (List Char × Nat)
  attacks : List AttackRecord
  warEvents : List WarEvent
  successfulHits : Int
  failedHits : Int
  acresExchanged : Int
  aidShipments : Int
deriving Repr, DecidableEq

/-- Initial dashboard fold state. -/
def initDashState : DashState := ⟨[], [], [], [], 0, 0, 0, 0⟩

/-- Python string truthiness fallback `a or b` on raw text. -/
def orElseChars (a b : List Char) : List Char := if a = [] then b else a

/-- One iteration of the build_dashboard_analytics row loop (the war-row
slice: war-event collection, aid branch, attack branch). -/
def dashStep (st : DashState) (row : EventRow) : DashState :=
  let category := lowerStr (orElseChars row.category "other".toList)
  let summary := row.summary
  let dayText := row.eventTimeText
  let dayKey := parseEventDay dayText
  let st :=
    match classifyWarEvent summary with
    | some _ => { st with warEvents := st.warEvents ++ [⟨row.id, summary, dayText, dayKey⟩] }
    | Option.none => st
  if category = "aid".toList then
    let aid := parseAidSummary summary
    let actorRaw := match aid with | some pr => pr.1 | Option.none => row.actor
    let targetRaw := match aid with | some pr => pr.2 | Option.none => row.target
    let (m1, actorN) := ensureParty st.provinces actorRaw
    let (m2, targetN) := ensureParty m1 targetRaw
    let m3 := match actorN with
      | some nm => updateParty m2 nm (fun p => { p with aidSent := p.aidSent + 1 })
      | Option.none => m2
    let men1 := match actorN with
      | some nm =>
        match (lookupParty m3 nm).bind (fun p => p.kingdom) with
        | some kd => bumpMention st.mentions kd
        | Option.none => st.mentions
      | Option.none => st.mentions
    let m4 := match targetN with
      | some nm => updateParty m3 nm (fun p => { p with aidReceived := p.aidReceived + 1 })
      | Option.none => m3
    let men2 := match targetN with
      | some nm =>
        match (lookupParty m4 nm).bind (fun p => p.kingdom) with
        | some kd => bumpMention men1 kd
        | Option.none => men1
      | Option.none => men1
    { st with
      provinces := m4, mentions := men2,
      aidShipments := st.aidShipments + (if aid.isSome then 1 else 0) }
  else if category ≠ "attack".toList then st
  else
    let attack := parseAttackSummary summary
    let actorRaw := orElseChars (attack.actorRaw.getD []) row.actor
    let targetRaw := orElseChars (attack.targetRaw.getD []) row.target
    let (m1, actorN) := ensureParty st.provinces actorRaw
    let (m2, targetN) := ensureParty m1 targetRaw
    let actorKingdom := match actorN with
      | some nm => (lookupParty m2 nm).bind (fun p => p.kingdom)
      | Option.none => extractKingdom actorRaw
    let targetKingdom := match targetN with
      | some nm => (lookupParty m2 nm).bind (fun p => p.kingdom)
      | Option.none => extractKingdom targetRaw
    let m3 := match actorN with
      | some nm => updateParty m2 nm (fun p => { p with attacksSent := p.attacksSent + 1 })
      | Option.none => m2
    let m4 := match targetN with
      | some nm => updateParty m3 nm (fun p => { p with attacksReceived := p.attacksReceived + 1 })
      | Option.none => m3
    let men1 := match actorKingdom with
      | some kd => bumpMention st.mentions kd
      | Option.none => st.mentions
    let men2 := match targetKingdom with
      | some kd => bumpMention men1 kd
      | Option.none => men1
    let transfer : Int := attack.acres
    let loss : Int := attack.targetLossAcres
    let (m5, succ, fail, exch) :=
      if attack.outcome = "failed" then
        (match actorN with
         | some nm => updateParty m4 nm (fun p => { p with failedAttacks := p.failedAttacks + 1 })
         | Option.none => m4,
         st.successfulHits, st.failedHits + 1, st.acresExchanged)
      else if attack.outcome = "success" then
        let ma := match actorN with
          | some nm =>
            updateParty m4 nm (fun p => { p with successfulAttacks := p.successfulAttacks + 1 })
          | Option.none => m4
        let mb :=
          if 0 < transfer then
            match actorN with
            | some nm => updateParty ma nm (fun p => { p with gains := p.gains + transfer })
            | Option.none => ma
          else ma
        let mc :=
          if 0 < loss then
            match targetN with
            | some nm => updateParty mb nm (fun p => { p with losses := p.losses + loss })
            | Option.none => mb
          else mb
        (mc, st.successfulHits + 1, st.failedHits,
         st.acresExchanged + (if 0 < transfer then transfer else 0))
      else (m4, st.successfulHits, st.failedHits, st.acresExchanged)
    let rec0 : AttackRecord :=
      { rowId := row.id, dayKey := dayKey, actorKingdom := actorKingdom,
        targetKingdom := targetKingdom, actorName := actorN.getD [],
        targetName := targetN.getD [], outcome := attack.outcome,
        attackType := attack.attackType, acres := transfer, targetLossAcres := loss }
    { st with
      provinces := m5, mentions := men2, attacks := st.attacks ++ [rec0],
      successfulHits := succ, failedHits := fail, acresExchanged := exch }

/-- Python code-point lexicographic string comparison (str less-than). -/
def strLt : List Char → List Char → Bool
  | [], [] => false
  | [], _ :: _ => true
  | _ :: _, [] => false
  | a :: as, b :: bs => a.toNat < b.toNat || (a = b && strLt as bs)

/-- Home-kingdom inference:
sorted(kingdom_mentions.items(), key = (-count, coordinate))[0][0]. -/
def homeFromMentions (mentions : List (List Char × Nat)) : Option (List Char) :=
  match mentions with
  | [] => Option.none
  | m0 :: rest =>
    some ((rest.foldl
      (fun best kv => if kv.2 > best.2 || (kv.2 = best.2 && strLt kv.1 best.1) then kv else best)
      m0).1)

/-- The war-row slice of source function build_dashboard_analytics (app.py):
fold the row loop, infer the home kingdom when the forced one is falsy, and
build the war rows. -/
def dashboardWarRows (rows : List EventRow) (forcedHomeKingdom : Option (List Char)) :
    List WarRow :=
  let st := rows.foldl dashStep initDashState
  let home0 := match forcedHomeKingdom with
    | some h => if h = [] then Option.none else some h
    | Option.none => Option.none
  let home := match home0 with
    | some h => some h
    | Option.none => homeFromMentions st.mentions
  buildWarRows st.warEvents st.attacks home

/-- Heap address of a Python object (cache values are stored and returned by
reference in Python; copy.deepcopy allocates a fresh object). -/
abbrev Addr := Nat

/-- Opaque content of one cached value object. -/
abbrev CVal := Nat

/-- One ANALYTICS_CACHE entry: the freshness token it was stamped with, its
wall-clock expiry (time.time() + CACHE_TTL_SECONDS, modelled at integer
resolution) and the address of the stored deep copy. -/
structure CacheEntry where
  token : List Char
  expires : Int
  value : Addr
deriving Repr, DecidableEq

/-- The mutable store visible to cache_get/cache_set: the object heap and the
ANALYTICS_CACHE dict (insertion-ordered key to entry map). -/
structure CacheState where
  heap : List CVal
  cache : List (List Char × CacheEntry)
deriving Repr, DecidableEq

/-- Content of the object at address `a`. -/
def heapRead (st : CacheState) (a : Addr) : Option CVal := st.heap[a]?

/-- Caller-side mutation of the object at address `a` (what a caller can do
to a value it passed to cache_set or got back from cache_get). -/
def heapWrite (st : CacheState) (a : Addr) (v : CVal) : CacheState :=
  { st with heap := st.heap.set a v }

/-- copy.deepcopy: allocate a fresh object holding the content of `a` and
return its address. -/
def deepcopyAlloc (st : CacheState) (a : Addr) : CacheState × Addr :=
  ({ st with heap := st.heap ++ [(st.heap[a]?).getD 0] }, st.heap.length)

/-- ANALYTICS_CACHE.get(key). -/
def cacheLookup (c : List (List Char × CacheEntry)) (key : List Char) : Option CacheEntry :=
  (c.find? (fun pr => pr.1 = key)).map Prod.snd

/-- ANALYTICS_CACHE.pop(key, None). -/
def cacheErase (c : List (List Char × CacheEntry)) (key : List Char) :
    List (List Char × CacheEntry) :=
  c.filter (fun pr => pr.1 ≠ key)

/-- ANALYTICS_CACHE[key] = entry (replace in place or append). -/
def cacheInsert (c : List (List Char × CacheEntry)) (key : List Char) (e : CacheEntry) :
    List (List Char × CacheEntry) :=
  if (c.find? (fun pr => pr.1 = key)).isSome then
    c.map (fun pr => if pr.1 = key then (pr.1, e) else pr)
  else c ++ [(key, e)]

/-- Source function cache_get (app.py).  `token` is the current freshness
token cache_token() and `now` is time.time(); a missing key is a plain miss,
a stale token or an expired entry is a miss that evicts the entry, and a hit
returns a deep copy of the stored value. -/
def cacheGet (st : CacheState) (key : List Char) (token : List Char) (now : Int) :
    Option Addr × CacheState :=
  match cacheLookup st.cache key with
  | Option.none => (Option.none, st)
  | some entry =>
    if entry.token ≠ token then (Option.none, { st with cache := cacheErase st.cache key })
    else if entry.expires < now then
      (Option.none, { st with cache := cacheErase st.cache key })
    else
      let stA := deepcopyAlloc st entry.value
      (some stA.2, stA.1)

/-- Source function cache_set (app.py): stamp the current token, compute the
expiry from `now` and the TTL, and store a deep copy of the value at `a`. -/
def cacheSet (st : CacheState) (key : List Char) (a : Addr) (token : List Char)
    (now ttl : Int) : CacheState :=
  let stA := deepcopyAlloc st a
  { stA.1 with cache := cacheInsert stA.1.cache key ⟨token, now + ttl, stA.2⟩ }

/-- The content a cache_get hit delivers (None on a miss): read the returned
address in the post-state. -/
def cacheGetValue (st : CacheState) (key : List Char) (token : List Char) (now : Int) :
    Option CVal :=
  match cacheGet st key token now with
  | (some a, st2) => heapRead st2 a
  | (Option.none, _) => Option.none

/-- Event-row construction helper for concrete scenarios (actor/target
columns empty, as the narratives carry the parties). -/
def mkEventRow (i : Nat) (t cat s : String) : EventRow :=
  ⟨i, t.toList, cat.toList, [], [], s.toList⟩

/-- War-event construction helper for concrete scenarios, with the day key
parsed from the day text exactly as build_dashboard_analytics does. -/
def mkWarEvent (i : Nat) (t s : String) : WarEvent :=
  ⟨i, s.toList, t.toList, parseEventDay t.toList⟩

/-- Observable fields of a War record used by the concrete scenarios. -/
structure WarView where
  warId : List Char
  opponentName : List Char
  status : String
  result : String
  startKey : Option DayKey
  endKey : Option DayKey
  hitsFor : Int
  hitsAgainst : Int
  acresFor : Int
  acresAgainst : Int
deriving Repr, DecidableEq

/-- Projection of a War record to its observable fields. -/
def warView (w : WarRow) : WarView :=
  ⟨w.warId, w.opponentName, w.status, w.result, w.startKey, w.endKey,
   w.hitsFor, w.hitsAgainst, w.acresFor, w.acresAgainst⟩

/-- The three-event end-to-end scenario of the spec. -/
def c3rows : List EventRow :=
  [mkEventRow 1 "January 1 of YR1" "war" "We have declared WAR on Foo (2:3)!",
   mkEventRow 2 "January 3 of YR1" "attack"
     "1 - Home (1:1) captured 40 acres of land from 2 - Foo (2:3).",
   mkEventRow 3 "January 10 of YR1" "war" "war with Foo (2:3) has ended."]

/-- Two open wars and an end event whose opponent matches neither. -/
def c2events : List WarEvent :=
  [mkWarEvent 1 "January 1 of YR1" "We have declared WAR on Foo (2:3)!",
   mkWarEvent 2 "January 2 of YR1" "We have declared WAR on Bar (4:5)!",
   mkWarEvent 3 "January 3 of YR1" "war with Baz (9:9) has ended."]

/-- A declare and an end whose day texts do not parse. -/
def c4events : List WarEvent :=
  [mkWarEvent 1 "not a date" "We have declared WAR on Foo (2:3)!",
   mkWarEvent 2 "also not a date" "war with Foo (2:3) has ended."]

/-- Two declarations against different opponents. -/
def c7aEvents : List WarEvent :=
  [mkWarEvent 1 "January 1 of YR1" "We have declared WAR on Foo (2:3)!",
   mkWarEvent 2 "January 2 of YR1" "We have declared WAR on Bar (4:5)!"]

/-- Declare, close, then re-declare against the same opponent. -/
def c7bEvents : List WarEvent :=
  [mkWarEvent 1 "January 1 of YR1" "We have declared WAR on Foo (2:3)!",
   mkWarEvent 2 "January 5 of YR1" "war with Foo (2:3) has ended.",
   mkWarEvent 3 "January 9 of YR1" "We have declared WAR on Foo (2:3)!"]

/-- C1: effective_land_impact returns 0 for a wartime Raze; in every other
case it returns the transfer when positive and the loss otherwise; in
particular effective_land_impact(0, 131, Raze, False) = 131. -/
theorem effectiveLandImpact_policy (t l : Int) (a : String) (w : Bool)
    (_ht : 0 ≤ t) (_hl : 0 ≤ l) :
    effectiveLandImpact t l "Raze" true = 0 ∧
    (¬ (w = true ∧ a = "Raze") →
      effectiveLandImpact t l a w = if 0 < t then t else l) ∧
    effectiveLandImpact 0 131 "Raze" false = 131 := by
  refine ⟨?_, ?_, by decide⟩
  · simp [effectiveLandImpact]
  · intro h
    unfold effectiveLandImpact
    rw [if_neg h]

/-- C1 witness: the policy evaluated at concrete inputs through the theorem. -/
theorem effectiveLandImpact_policy_witness :
    effectiveLandImpact 5 3 "Raze" true = 0 ∧
    effectiveLandImpact 5 3 "Plunder" false = 5 ∧
    effectiveLandImpact 0 131 "Raze" false = 131 := by
  have h := effectiveLandImpact_policy 5 3 "Plunder" false (by decide) (by decide)
  refine ⟨h.1, ?_, h.2.2⟩
  rw [h.2.1 (by decide)]
  decide

/-- C10: intel_result_label never raises and maps exactly int 1 to success,
0 to failed, 2 to partial, and everything else (including values that do not
convert to an integer) to unknown. -/
theorem intel_result_label_total (v : PyVal) :
    (intelResultLabel v = "success" ↔ pyToInt v = some 1) ∧
    (intelResultLabel v = "failed" ↔ pyToInt v = some 0) ∧
    (intelResultLabel v = "partial" ↔ pyToInt v = some 2) ∧
    (pyToInt v = Option.none → intelResultLabel v = "unknown") ∧
    (intelResultLabel v = "success" ∨ intelResultLabel v = "failed" ∨
      intelResultLabel v = "partial" ∨ intelResultLabel v = "unknown") := by
  unfold intelResultLabel
  cases h : pyToInt v with
  | none => simp
  | some n =>
    by_cases h1 : n = 1
    · subst h1; simp
    · by_cases h0 : n = 0
      · subst h0; simp
      · by_cases h2 : n = 2
        · subst h2; simp
        · simp [h1, h0, h2]

/-- C10 witness: the label map applied at concrete convertible and
unconvertible values through the theorem. -/
theorem intel_result_label_total_witness :
    intelResultLabel (PyVal.str " 2 ".toList) = "partial" ∧
    intelResultLabel PyVal.none = "unknown" :=
  ⟨(intel_result_label_total (PyVal.str " 2 ".toList)).2.2.1.mpr (by decide),
   (intel_result_label_total PyVal.none).2.2.2.1 (by decide)⟩

/-- C8 counterexample: with empty actor and target the two normalized keys
are equal, yet classify_operation_kind("Night Strike", "", "") is hostile,
not support — the self-target tier additionally requires both keys to be
non-empty. -/
theorem classify_operation_kind_counterexample :
    operationKey [] = operationKey [] ∧
    classifyOperationKind "Night Strike".toList [] [] = "hostile" ∧
    ¬ classifyOperationKind "Night Strike".toList [] [] = "support" := by
  refine ⟨rfl, by decide, by decide⟩

/-- C8 (amended): the three tiers are evaluated in order — actor equal to
target after normalization with a NON-EMPTY key gives support, an intel
result requires an intel keyword, a name outside the support set and no
(non-empty) self-target, a hostile result requires failing all three tests;
the three concrete examples of the claim hold. -/
theorem classify_operation_kind_tiers :
    classifyOperationKind "Minor Protection".toList "A".toList "A".toList = "support" ∧
    classifyOperationKind "Spy on Throne".toList "A".toList "B".toList = "intel" ∧
    classifyOperationKind "Night Strike".toList "A".toList "B".toList = "hostile" ∧
    (∀ op a t : List Char, operationKey a ≠ [] → operationKey a = operationKey t →
      classifyOperationKind op a t = "support") ∧
    (∀ op a t : List Char, classifyOperationKind op a t = "intel" →
      OP_INTEL_KEYWORDS.any (fun tk => hasSub tk (operationKey op)) = true ∧
      operationKey op ∉ OP_SUPPORT_NAMES ∧
      ¬ (operationKey a ≠ [] ∧ operationKey a = operationKey t)) ∧
    (∀ op a t : List Char, classifyOperationKind op a t = "hostile" →
      OP_INTEL_KEYWORDS.any (fun tk => hasSub tk (operationKey op)) = false ∧
      operationKey op ∉ OP_SUPPORT_NAMES ∧
      ¬ (operationKey a ≠ [] ∧ operationKey a = operationKey t)) := by
  refine ⟨by decide, by decide, by decide, ?_, ?_, ?_⟩
  · intro op a t h1 h2
    unfold classifyOperationKind
    rw [if_pos ⟨h1, h2 ▸ h1, h2⟩]
  · intro op a t h
    unfold classifyOperationKind at h
    dsimp only at h
    split_ifs at h with h1 h2 h3
    · exact absurd h (by decide)
    · exact absurd h (by decide)
    · exact ⟨h3, h2, fun hc => h1 ⟨hc.1, hc.2 ▸ hc.1, hc.2⟩⟩
    · exact absurd h (by decide)
  · intro op a t h
    unfold classifyOperationKind at h
    dsimp only at h
    split_ifs at h with h1 h2 h3
    · exact absurd h (by decide)
    · exact absurd h (by decide)
    · exact absurd h (by decide)
    · exact ⟨by simpa using h3, h2, fun hc => h1 ⟨hc.1, hc.2 ▸ hc.1, hc.2⟩⟩

/-- C8 witness: the amended self-target tier applied at a concrete non-empty
pair through the theorem. -/
theorem classify_operation_kind_tiers_witness :
    classifyOperationKind "Fireball".toList " My  Prov ".toList "my prov".toList = "support" :=
  (classify_operation_kind_tiers).2.2.2.1 "Fireball".toList " My  Prov ".toList
    "my prov".toList (by decide) (by decide)

/-- C5 counterexample: normalize_party strips only one leading slot prefix
per application, so it is not idempotent — on "3 - 4 - Foo" one application
gives "4 - Foo" while a second application gives "Foo". -/
theorem normalize_party_not_idempotent :
    normalizeParty "3 - 4 - Foo".toList = some "4 - Foo".toList ∧
    normalizeParty "4 - Foo".toList = some "Foo".toList ∧
    "Foo".toList ≠ "4 - Foo".toList := by
  refine ⟨by decide, by decide, by decide⟩

/-- C5 (amended): normalize_party returns null for empty, None and
whitespace-only input (and strips prefixes, coordinates, whitespace and stray
hyphens/periods as described), but it is not idempotent in general: each
application strips at most one leading slot prefix. -/
theorem normalize_party_empty_null :
    normalizeParty [] = Option.none ∧
    normalizePartyOpt Option.none = Option.none ∧
    (∀ s : List Char, (∀ c ∈ s, isWs c = true) → normalizeParty s = Option.none) := by
  refine ⟨rfl, rfl, ?_⟩
  intro s hs
  by_cases h0 : s = []
  · subst h0; rfl
  · have h1 : s.dropWhile isWs = [] := List.dropWhile_eq_nil_iff.mpr hs
    have h2 : pyStrip isWs s = [] := by
      unfold pyStrip
      rw [h1]
      rfl
    unfold normalizeParty
    rw [if_neg h0]
    simp only [h2]
    rfl

/-- C5 witness: the amended null contract applied at a concrete
whitespace-only string through the theorem. -/
theorem normalize_party_empty_null_witness :
    normalizeParty "  ".toList = Option.none :=
  (normalize_party_empty_null).2.2 "  ".toList (by decide)

/-- C6: whenever parse_attack_summary classifies the outcome as failed, both
acreage fields are zero. -/
theorem failed_attack_zero_acres (s : List Char)
    (h : (parseAttackSummary s).outcome = "failed") :
    (parseAttackSummary s).acres = 0 ∧ (parseAttackSummary s).targetLossAcres = 0 := by
  revert h
  unfold parseAttackSummary
  dsimp only
  repeat' split
  all_goals intro h2
  all_goals first
    | exact ⟨rfl, rfl⟩
    | exact absurd h2 (by simp)

/-- C6 witness: a concrete repelled line parsed as failed with zero acreage
through the theorem. -/
theorem failed_attack_zero_acres_witness :
    (parseAttackSummary "A attempted to invade B.".toList).outcome = "failed" ∧
    (parseAttackSummary "A attempted to invade B.".toList).acres = 0 ∧
    (parseAttackSummary "A attempted to invade B.".toList).targetLossAcres = 0 := by
  have h := failed_attack_zero_acres "A attempted to invade B.".toList (by decide)
  exact ⟨by decide, h.1, h.2⟩

set_option maxRecDepth 40000 in
/-- C3: the three-event scenario produces exactly one War with hits_for = 1,
acres_for = 40, result ended, start day-key (1,1,1) and end day-key (1,1,10). -/
theorem war_scenario_end_to_end :
    (dashboardWarRows c3rows Option.none).map warView =
      [⟨"1".toList, "Foo".toList, "closed", "ended",
        some (1, 1, 1), some (1, 1, 10), 1, 0, 40, 0⟩] := by
  decide

set_option maxRecDepth 40000 in
/-- C2 counterexample: with two wars open (Foo 2:3 and Bar 4:5) an end event
naming Baz (9:9) — matching no open war by kingdom or name — is NOT discarded:
build_war_rows closes the most recently opened war (Bar).  The claim requires
the fallback only when exactly one war is open and a no-op otherwise. -/
theorem end_event_fallback_counterexample :
    (buildWarRows c2events [] Option.none).map warView =
      [⟨"2".toList, "Bar".toList, "closed", "ended", some (1, 1, 2), some (1, 1, 3), 0, 0, 0, 0⟩,
       ⟨"1".toList, "Foo".toList, "active", "active", some (1, 1, 1), Option.none, 0, 0, 0, 0⟩] := by
  decide

set_option maxRecDepth 40000 in
/-- C4 counterexample: a declare event with unparseable day text produces a
War with null start_key, and closing it with an equally undated end event
leaves a closed War with null end_key — refuting both "start_key is never
null" and "closed implies end_key non-null". -/
theorem war_keys_counterexample :
    (buildWarRows c4events [] Option.none).map (fun w => w.startKey) = [Option.none] ∧
    (buildWarRows c4events [] Option.none).map (fun w => w.endKey) = [Option.none] ∧
    (buildWarRows c4events [] Option.none).map (fun w => w.status) = ["closed"] := by
  refine ⟨by decide, by decide, by decide⟩

theorem find_rev_filter {α : Type} (p : α → Bool) (l : List α) :
    l.reverse.find? p = (l.filter p).getLast? := by
  induction l with
  | nil => rfl
  | cons a l ih =>
    rw [List.reverse_cons, List.find?_append, ih, List.filter_cons]
    by_cases h : p a
    · rw [if_pos h]
      have hfa : List.find? p [a] = some a := by simp [List.find?, h]
      rw [hfa]
      cases hf : l.filter p with
      | nil => rfl
      | cons x xs =>
        rw [List.getLast?_cons_cons]
        cases hg : (x :: xs).getLast? with
        | none => exact absurd hg (by simp [List.getLast?_eq_none_iff])
        | some y => rfl
    · rw [if_neg h]
      have hfa : List.find? p [a] = Option.none := by simp [List.find?, h]
      rw [hfa, Option.or_none]

/-- C2 (amended): an end event resolves by scanning the open wars most
recently opened first, taking the FIRST war that matches the event opponent
by exact kingdom or by case-insensitive name (the kingdom/name checks are
interleaved per war, not two separate passes); when no open war matches it
falls back to the most recently opened war whenever at least one war is open
(not only when exactly one is); only when no war is open is the end event
discarded as a no-op. -/
theorem find_open_war_resolution :
    (∀ (wars : List WarRow) (openIdx : List Nat) (k n : Option (List Char)),
      findOpenWar wars openIdx k n =
        ((openIdx.filter (warMatches wars k n)).getLast?).or openIdx.getLast?) ∧
    (∀ (s : WarState) (e : WarEvent), classifyWarEvent e.summary = some "end" →
      s.openIdx = [] → warStep s e = s) := by
  constructor
  · intro wars openIdx k n
    unfold findOpenWar
    rw [find_rev_filter]
    cases (openIdx.filter (warMatches wars k n)).getLast? with
    | none => rfl
    | some i => rfl
  · intro s e hc ho
    unfold warStep
    rw [hc]
    dsimp only
    rw [if_neg (show ¬ ("end" = "declare") by decide), if_pos rfl, ho]
    have hnone : ∀ k n, findOpenWar s.wars [] k n = Option.none := by
      intro k n
      unfold findOpenWar
      rfl
    rw [hnone]

/-- C2 amended witness: the resolution rule and the empty no-op applied at
concrete inputs through the theorem. -/
theorem find_open_war_resolution_witness :
    findOpenWar [] [] Option.none Option.none = Option.none ∧
    warStep initWarState (mkWarEvent 7 "January 1 of YR1" "war with Foo (2:3) has ended.")
      = initWarState := by
  constructor
  · rw [(find_open_war_resolution).1 [] [] Option.none Option.none]
    rfl
  · exact (find_open_war_resolution).2 initWarState
      (mkWarEvent 7 "January 1 of YR1" "war with Foo (2:3) has ended.") (by decide) rfl

theorem insertLe_perm {α : Type} (le : α → α → Bool) (a : α) (l : List α) :
    (insertLe le a l).Perm (a :: l) := by
  induction l with
  | nil => exact List.Perm.refl _
  | cons b bs ih =>
    unfold insertLe
    by_cases h : le a b
    · rw [if_pos h]
    · rw [if_neg h]
      exact (ih.cons b).trans (List.Perm.swap a b bs)

theorem insertionSortBy_perm {α : Type} (le : α → α → Bool) (l : List α) :
    (insertionSortBy le l).Perm l := by
  induction l with
  | nil => exact List.Perm.refl _
  | cons a l ih =>
    unfold insertionSortBy
    exact (insertLe_perm le a (insertionSortBy le l)).trans (ih.cons a)

theorem updateAt_map {α β : Type} (g : α → β) (f : α → α) (h : ∀ x, g (f x) = g x) :
    ∀ (i : Nat) (l : List α), (updateAt f i l).map g = l.map g := by
  intro i l
  induction l generalizing i with
  | nil => cases i <;> rfl
  | cons a l ih =>
    cases i with
    | zero => simp [updateAt, h a]
    | succ j => simp [updateAt, ih j]

theorem updateAt_getElem? {α : Type} (f : α → α) :
    ∀ (i j : Nat) (l : List α),
      (updateAt f i l)[j]? = if j = i then (l[j]?).map f else l[j]? := by
  intro i j l
  induction l generalizing i j with
  | nil => simp [updateAt]
  | cons a l ih =>
    cases i with
    | zero =>
      cases j with
      | zero => simp [updateAt]
      | succ j2 => simp [updateAt]
    | succ i2 =>
      cases j with
      | zero => simp [updateAt]
      | succ j2 => simpa [updateAt] using ih i2 j2

theorem updateAt_length {α : Type} (f : α → α) :
    ∀ (i : Nat) (l : List α), (updateAt f i l).length = l.length := by
  intro i l
  induction l generalizing i with
  | nil => cases i <;> rfl
  | cons a l ih =>
    cases i with
    | zero => rfl
    | succ j => simp [updateAt, ih j]

theorem digitsToNat_append (xs : List Char) (d : Char) :
    digitsToNat (xs ++ [d]) = 10 * digitsToNat xs + (d.toNat - 48) := by
  unfold digitsToNat
  rw [List.foldl_append]
  rfl

theorem toNat_digitChar (k : Nat) (hk : k < 10) : (Char.ofNat (48 + k)).toNat = 48 + k := by
  interval_cases k <;> decide

/-- The decimal rendering worker round-trips through the digit parser for any
sufficient fuel, hence natToChars is injective. -/
theorem digitsToNat_natToCharsAux :
    ∀ (fuel n : Nat), n ≤ fuel → digitsToNat (natToCharsAux fuel n) = n := by
  intro fuel
  induction fuel with
  | zero =>
    intro n hn
    have : n = 0 := Nat.le_zero.mp hn
    subst this
    decide
  | succ fuel ih =>
    intro n hn
    unfold natToCharsAux
    by_cases h : n < 10
    · rw [if_pos h]
      show digitsToNat [Char.ofNat (48 + n)] = n
      unfold digitsToNat
      simp [toNat_digitChar n h]
    · rw [if_neg h]
      rw [digitsToNat_append, ih (n / 10) (by omega), toNat_digitChar (n % 10) (by omega)]
      omega

theorem natToChars_inj : Function.Injective natToChars := by
  intro a b h
  have ha := digitsToNat_natToCharsAux a a (Nat.le_refl a)
  have hb := digitsToNat_natToCharsAux b b (Nat.le_refl b)
  unfold natToChars at h
  rw [h] at ha
  rw [hb] at ha
  exact ha.symm

theorem attackFold_warId (hk oppK : List Char) (w acc : WarRow) (a : AttackRecord) :
    (attackFold hk oppK w acc a).warId = acc.warId := by
  unfold attackFold
  dsimp only
  split_ifs <;> rfl

theorem foldl_attackFold_warId (hk oppK : List Char) (w : WarRow) :
    ∀ (atk : List AttackRecord) (acc : WarRow),
      (atk.foldl (attackFold hk oppK w) acc).warId = acc.warId := by
  intro atk
  induction atk with
  | nil => intro acc; rfl
  | cons a atk ih =>
    intro acc
    rw [List.foldl_cons, ih, attackFold_warId]

theorem attributeWar_warId (hk : List Char) (atk : List AttackRecord) (w : WarRow) :
    (attributeWar hk atk w).warId = w.warId := by
  unfold attributeWar
  cases w.opponentKingdom with
  | none => rfl
  | some oppK =>
    dsimp only
    exact foldl_attackFold_warId hk oppK w atk w

theorem finalizeWar_warId (w : WarRow) : (finalizeWar w).warId = w.warId := by
  unfold finalizeWar
  dsimp only
  split_ifs <;> rfl

theorem closeRow_warId (e : WarEvent) (w : WarRow) : (closeRow e w).warId = w.warId := rfl

theorem pwStartFn_warId (x : List Char) (w : WarRow) : (pwStartFn x w).warId = w.warId := rfl

theorem pwEndFn_warId (x : List Char) (w : WarRow) : (pwEndFn x w).warId = w.warId := rfl

theorem classifyWarEvent_cases (sm : List Char) :
    classifyWarEvent sm = Option.none ∨ classifyWarEvent sm = some "declare" ∨
    classifyWarEvent sm = some "end" ∨ classifyWarEvent sm = some "postwar_start" ∨
    classifyWarEvent sm = some "postwar_end" := by
  unfold classifyWarEvent
  dsimp only
  split_ifs <;> simp

theorem warStep_eq_none (s : WarState) (e : WarEvent)
    (h : classifyWarEvent e.summary = Option.none) : warStep s e = s := by
  unfold warStep
  rw [h]

theorem warStep_eq_declare (s : WarState) (e : WarEvent)
    (h : classifyWarEvent e.summary = some "declare") :
    warStep s e =
      { wars := s.wars ++ [declareRow s e], openIdx := s.openIdx ++ [s.wars.length],
        seq := s.seq + 1 } := by
  unfold warStep
  rw [h]
  dsimp only
  rw [if_pos rfl]

theorem warStep_eq_end (s : WarState) (e : WarEvent)
    (h : classifyWarEvent e.summary = some "end") :
    warStep s e =
      (match findOpenWar s.wars s.openIdx (endOppKingdom e) (endOppName e) with
       | Option.none => s
       | some i =>
         { s with
           wars := updateAt (closeRow e) i s.wars,
           openIdx := s.openIdx.filter (fun j => j ≠ i) }) := by
  unfold warStep
  rw [h]
  dsimp only
  rw [if_neg (by decide), if_pos rfl]

theorem warStep_eq_pwstart (s : WarState) (e : WarEvent)
    (h : classifyWarEvent e.summary = some "postwar_start") :
    warStep s e =
      (match matchPostwarExpiry e.summary with
       | Option.none => s
       | some expiryRaw =>
         match lastIdxSat (fun w => w.status = "closed" ∧ w.postwarExpires = []) s.wars with
         | some i => { s with wars := updateAt (pwStartFn (pyStrip isWs expiryRaw)) i s.wars }
         | Option.none => s) := by
  unfold warStep
  rw [h]
  dsimp only
  rw [if_neg (by decide), if_neg (by decide), if_pos rfl]

theorem warStep_eq_pwend (s : WarState) (e : WarEvent)
    (h : classifyWarEvent e.summary = some "postwar_end") :
    warStep s e =
      (match lastIdxSat (fun w => w.postwarExpires ≠ [] ∧ w.postwarEndDay = []) s.wars with
       | some i => { s with wars := updateAt (pwEndFn e.eventTimeText) i s.wars }
       | Option.none => s) := by
  unfold warStep
  rw [h]
  dsimp only
  rw [if_neg (by decide), if_neg (by decide), if_neg (by decide), if_pos rfl]

/-- The war_id column and the sequence counter across one event-loop step:
a declare appends str(seq+1) and bumps the counter; every other event leaves
both unchanged. -/
theorem warStep_ids (s : WarState) (e : WarEvent) :
    (warStep s e).wars.map (fun w => w.warId) =
      (if classifyWarEvent e.summary = some "declare"
        then s.wars.map (fun w => w.warId) ++ [natToChars (s.seq + 1)]
        else s.wars.map (fun w => w.warId)) ∧
    (warStep s e).seq =
      (if classifyWarEvent e.summary = some "declare" then s.seq + 1 else s.seq) := by
  rcases classifyWarEvent_cases e.summary with hc | hc | hc | hc | hc
  · rw [warStep_eq_none s e hc, hc]
    simp
  · rw [warStep_eq_declare s e hc, hc]
    simp [declareRow]
  · rw [warStep_eq_end s e hc, hc]
    rw [if_neg (by decide), if_neg (by decide)]
    cases hf : findOpenWar s.wars s.openIdx (endOppKingdom e) (endOppName e) with
    | none => exact ⟨rfl, rfl⟩
    | some i =>
      exact ⟨updateAt_map (fun w => w.warId) (closeRow e) (closeRow_warId e) i s.wars, rfl⟩
  · rw [warStep_eq_pwstart s e hc, hc]
    rw [if_neg (by decide), if_neg (by decide)]
    cases hm : matchPostwarExpiry e.summary with
    | none => exact ⟨rfl, rfl⟩
    | some expiryRaw =>
      cases hl : lastIdxSat (fun w => w.status = "closed" ∧ w.postwarExpires = []) s.wars with
      | none => exact ⟨rfl, rfl⟩
      | some i =>
        exact ⟨updateAt_map (fun w => w.warId) (pwStartFn (pyStrip isWs expiryRaw))
          (pwStartFn_warId (pyStrip isWs expiryRaw)) i s.wars, rfl⟩
  · rw [warStep_eq_pwend s e hc, hc]
    rw [if_neg (by decide), if_neg (by decide)]
    cases hl : lastIdxSat (fun w => w.postwarExpires ≠ [] ∧ w.postwarEndDay = []) s.wars with
    | none => exact ⟨rfl, rfl⟩
    | some i =>
      exact ⟨updateAt_map (fun w => w.warId) (pwEndFn e.eventTimeText)
        (pwEndFn_warId e.eventTimeText) i s.wars, rfl⟩

/-- After folding the event loop, the war_id column is exactly
str(seq0+1), ..., str(seq0+d) appended to the initial column, where d is the
number of declare-classified events. -/
theorem foldl_warStep_ids :
    ∀ (evs : List WarEvent) (s : WarState),
      (evs.foldl warStep s).wars.map (fun w => w.warId) =
        s.wars.map (fun w => w.warId) ++
          (List.range' (s.seq + 1)
            (evs.countP (fun e => decide (classifyWarEvent e.summary = some "declare")))).map
            natToChars ∧
      (evs.foldl warStep s).seq =
        s.seq + evs.countP (fun e => decide (classifyWarEvent e.summary = some "declare")) := by
  intro evs
  induction evs with
  | nil => intro s; simp
  | cons e evs ih =>
    intro s
    rw [List.foldl_cons]
    obtain ⟨hstep1, hstep2⟩ := warStep_ids s e
    obtain ⟨h1, h2⟩ := ih (warStep s e)
    by_cases hd : classifyWarEvent e.summary = some "declare"
    · have hcnt : (e :: evs).countP
          (fun e => decide (classifyWarEvent e.summary = some "declare")) =
          evs.countP (fun e => decide (classifyWarEvent e.summary = some "declare")) + 1 := by
        rw [List.countP_cons]
        simp [hd]
      rw [if_pos hd] at hstep1 hstep2
      rw [h1, h2, hstep1, hstep2, hcnt]
      constructor
      · rw [List.append_assoc, List.range'_succ]
        simp
      · omega
    · have hcnt : (e :: evs).countP
          (fun e => decide (classifyWarEvent e.summary = some "declare")) =
          evs.countP (fun e => decide (classifyWarEvent e.summary = some "declare")) := by
        rw [List.countP_cons]
        simp [hd]
      rw [if_neg hd] at hstep1 hstep2
      rw [h1, h2, hstep1, hstep2, hcnt]
      exact ⟨rfl, rfl⟩

theorem map_warId_finalize (l : List WarRow) :
    (l.map finalizeWar).map (fun w => w.warId) = l.map (fun w => w.warId) := by
  rw [List.map_map]
  exact List.map_congr_left (fun a _ => finalizeWar_warId a)

theorem map_warId_attribute (hk : List Char) (attacks : List AttackRecord) (l : List WarRow) :
    (l.map (attributeWar hk attacks)).map (fun w => w.warId) = l.map (fun w => w.warId) := by
  rw [List.map_map]
  refine List.map_congr_left (fun a _ => ?_)
  show (attributeWar hk attacks a).warId = a.warId
  exact attributeWar_warId hk attacks a

theorem buildWarRows_ids (events : List WarEvent) (attacks : List AttackRecord)
    (home : Option (List Char)) :
    ((buildWarRows events attacks home).map (fun w => w.warId)).Perm
      ((List.range' 1
        (events.countP (fun e => decide (classifyWarEvent e.summary = some "declare")))).map
        natToChars) := by
  have hfold := (foldl_warStep_ids (insertionSortBy eventLe events) initWarState).1
  have h00 : initWarState.wars.map (fun w => (WarRow.warId w)) = [] := rfl
  have h01 : initWarState.seq + 1 = 1 := rfl
  rw [h00, h01, List.nil_append] at hfold
  have hcount : (insertionSortBy eventLe events).countP
      (fun e => decide (classifyWarEvent e.summary = some "declare")) =
      events.countP (fun e => decide (classifyWarEvent e.summary = some "declare")) :=
    (insertionSortBy_perm eventLe events).countP_eq _
  rw [hcount] at hfold
  unfold buildWarRows
  dsimp only
  cases home with
  | none =>
    dsimp only
    have hperm := List.Perm.map (fun w => (WarRow.warId w))
      (insertionSortBy_perm warGe
        ((((insertionSortBy eventLe events).foldl warStep initWarState).wars).map finalizeWar))
    rw [map_warId_finalize, hfold] at hperm
    exact hperm
  | some hk =>
    dsimp only
    by_cases hk0 : hk = []
    · rw [if_pos hk0]
      have hperm := List.Perm.map (fun w => (WarRow.warId w))
        (insertionSortBy_perm warGe
          ((((insertionSortBy eventLe events).foldl warStep initWarState).wars).map finalizeWar))
      rw [map_warId_finalize, hfold] at hperm
      exact hperm
    · rw [if_neg hk0]
      have hperm := List.Perm.map (fun w => (WarRow.warId w))
        (insertionSortBy_perm warGe
          (((((insertionSortBy eventLe events).foldl warStep initWarState).wars).map
            (attributeWar hk attacks)).map finalizeWar))
      rw [map_warId_finalize, map_warId_attribute, hfold] at hperm
      exact hperm

set_option maxRecDepth 40000 in
/-- C7: every declare event opens a brand-new War with a fresh sequential id:
the number of produced War records equals the number of declare events and
the war ids are pairwise distinct; declaring against two different opponents
leaves both wars active simultaneously, and declare/close/re-declare against
the same opponent yields two distinct ids with the first war still closed. -/
theorem declare_opens_new_war :
    (∀ (events : List WarEvent) (attacks : List AttackRecord) (home : Option (List Char)),
      (buildWarRows events attacks home).length =
        events.countP (fun e => decide (classifyWarEvent e.summary = some "declare"))) ∧
    (∀ (events : List WarEvent) (attacks : List AttackRecord) (home : Option (List Char)),
      ((buildWarRows events attacks home).map (fun w => w.warId)).Nodup) ∧
    (buildWarRows c7aEvents [] Option.none).map warView =
      [⟨"2".toList, "Bar".toList, "active", "active", some (1, 1, 2), Option.none, 0, 0, 0, 0⟩,
       ⟨"1".toList, "Foo".toList, "active", "active", some (1, 1, 1), Option.none, 0, 0, 0, 0⟩] ∧
    (buildWarRows c7bEvents [] Option.none).map warView =
      [⟨"2".toList, "Foo".toList, "active", "active", some (1, 1, 9), Option.none, 0, 0, 0, 0⟩,
       ⟨"1".toList, "Foo".toList, "closed", "ended", some (1, 1, 1), some (1, 1, 5), 0, 0, 0, 0⟩] := by
  refine ⟨?_, ?_, by decide, by decide⟩
  · intro events attacks home
    have h := (buildWarRows_ids events attacks home).length_eq
    simpa using h
  · intro events attacks home
    refine (buildWarRows_ids events attacks home).symm.nodup ?_
    exact List.Nodup.map natToChars_inj (List.nodup_range' _ _)

theorem dayLe_of_dayLt (a b : DayKey) (h : dayLt a b = true) : dayLe a b = true := by
  obtain ⟨a1, a2, a3⟩ := a
  obtain ⟨b1, b2, b3⟩ := b
  simp only [dayLt, dayLe, decide_eq_true_eq] at h ⊢
  omega

theorem dayLe_refl (a : DayKey) : dayLe a a = true := by
  obtain ⟨a1, a2, a3⟩ := a
  simp [dayLe]

theorem eventLe_key (a b : WarEvent) (h : eventLe a b = true) :
    dayLe (eventSortKey a).1 (eventSortKey b).1 = true := by
  unfold eventLe at h
  rw [Bool.or_eq_true] at h
  rcases h with h | h
  · exact dayLe_of_dayLt _ _ h
  · rw [Bool.and_eq_true, decide_eq_true_eq] at h
    rw [h.1]
    exact dayLe_refl _

theorem eventLe_total (a b : WarEvent) : eventLe a b = true ∨ eventLe b a = true := by
  unfold eventLe
  rcases hka : (eventSortKey a).1 with ⟨a1, a2, a3⟩
  rcases hkb : (eventSortKey b).1 with ⟨b1, b2, b3⟩
  simp only [dayLt, Bool.or_eq_true, Bool.and_eq_true, decide_eq_true_eq, Prod.mk.injEq]
  omega

theorem eventLe_trans (a b c : WarEvent) (hab : eventLe a b = true)
    (hbc : eventLe b c = true) : eventLe a c = true := by
  unfold eventLe at hab hbc ⊢
  rcases hka : (eventSortKey a).1 with ⟨a1, a2, a3⟩
  rcases hkb : (eventSortKey b).1 with ⟨b1, b2, b3⟩
  rcases hkc : (eventSortKey c).1 with ⟨c1, c2, c3⟩
  rw [hka, hkb] at hab
  rw [hkb, hkc] at hbc
  simp only [dayLt, Bool.or_eq_true, Bool.and_eq_true, decide_eq_true_eq,
    Prod.mk.injEq] at hab hbc ⊢
  omega

theorem insertLe_pairwise {α : Type} (le : α → α → Bool)
    (htrans : ∀ a b c, le a b = true → le b c = true → le a c = true)
    (htot : ∀ a b, le a b = true ∨ le b a = true)
    (a : α) (l : List α) (hl : l.Pairwise (fun x y => le x y = true)) :
    (insertLe le a l).Pairwise (fun x y => le x y = true) := by
  induction l with
  | nil => simp [insertLe]
  | cons b bs ih =>
    rw [List.pairwise_cons] at hl
    obtain ⟨hb, hbs⟩ := hl
    unfold insertLe
    by_cases h : le a b
    · rw [if_pos h, List.pairwise_cons]
      refine ⟨?_, List.pairwise_cons.mpr ⟨hb, hbs⟩⟩
      intro x hx
      rcases List.mem_cons.mp hx with rfl | hx
      · exact h
      · exact htrans a b x h (hb x hx)
    · rw [if_neg h, List.pairwise_cons]
      refine ⟨?_, ih hbs⟩
      intro x hx
      have hx2 : x = a ∨ x ∈ bs := by
        have := (insertLe_perm le a bs).mem_iff.mp hx
        simpa using this
      rcases hx2 with rfl | hx2
      · rcases htot x b with h2 | h2
        · exact absurd h2 h
        · exact h2
      · exact hb x hx2

theorem insertionSortBy_pairwise {α : Type} (le : α → α → Bool)
    (htrans : ∀ a b c, le a b = true → le b c = true → le a c = true)
    (htot : ∀ a b, le a b = true ∨ le b a = true) (l : List α) :
    (insertionSortBy le l).Pairwise (fun x y => le x y = true) := by
  induction l with
  | nil => simp [insertionSortBy]
  | cons a l ih =>
    unfold insertionSortBy
    exact insertLe_pairwise le htrans htot a _ ih

theorem mem_of_getLast?_eq_some {α : Type} :
    ∀ (l : List α) (a : α), l.getLast? = some a → a ∈ l := by
  intro l
  induction l with
  | nil => intro a h; cases h
  | cons x xs ih =>
    intro a h
    cases xs with
    | nil =>
      cases h
      exact List.mem_singleton.mpr rfl
    | cons y ys =>
      rw [List.getLast?_cons_cons] at h
      exact List.mem_cons_of_mem x (ih a h)

theorem findOpenWar_mem (wars : List WarRow) (openIdx : List Nat)
    (k n : Option (List Char)) (i : Nat)
    (h : findOpenWar wars openIdx k n = some i) : i ∈ openIdx := by
  unfold findOpenWar at h
  cases hf : openIdx.reverse.find? (warMatches wars k n) with
  | some j =>
    rw [hf] at h
    cases h
    have := List.mem_of_find?_eq_some hf
    simpa using this
  | none =>
    rw [hf] at h
    exact mem_of_getLast?_eq_some openIdx i h

/-- The start/end/status triple of a War record. -/
def warKeys (w : WarRow) : Option DayKey × Option DayKey × String :=
  (w.startKey, w.endKey, w.status)

theorem attackFold_keys (hk oppK : List Char) (w acc : WarRow) (a : AttackRecord) :
    warKeys (attackFold hk oppK w acc a) = warKeys acc := by
  unfold attackFold
  dsimp only
  split_ifs <;> rfl

theorem foldl_attackFold_keys (hk oppK : List Char) (w : WarRow) :
    ∀ (atk : List AttackRecord) (acc : WarRow),
      warKeys (atk.foldl (attackFold hk oppK w) acc) = warKeys acc := by
  intro atk
  induction atk with
  | nil => intro acc; rfl
  | cons a atk ih =>
    intro acc
    rw [List.foldl_cons, ih, attackFold_keys]

theorem attributeWar_keys (hk : List Char) (atk : List AttackRecord) (w : WarRow) :
    warKeys (attributeWar hk atk w) = warKeys w := by
  unfold attributeWar
  cases w.opponentKingdom with
  | none => rfl
  | some oppK =>
    dsimp only
    exact foldl_attackFold_keys hk oppK w atk w

theorem finalizeWar_keys (w : WarRow) : warKeys (finalizeWar w) = warKeys w := by
  unfold finalizeWar
  dsimp only
  split_ifs <;> rfl

theorem pwStartFn_keys (x : List Char) (w : WarRow) : warKeys (pwStartFn x w) = warKeys w := rfl

theorem pwEndFn_keys (x : List Char) (w : WarRow) : warKeys (pwEndFn x w) = warKeys w := rfl

theorem closeRow_startKey (e : WarEvent) (w : WarRow) : (closeRow e w).startKey = w.startKey :=
  rfl

theorem mem_updateAt {α : Type} (f : α → α) :
    ∀ (i : Nat) (l : List α) (w : α), w ∈ updateAt f i l →
      w ∈ l ∨ ∃ v, l[i]? = some v ∧ w = f v := by
  intro i l
  induction l generalizing i with
  | nil => intro w hw; cases i <;> cases hw
  | cons a l ih =>
    intro w hw
    cases i with
    | zero =>
      rcases List.mem_cons.mp hw with rfl | hw2
      · exact Or.inr ⟨a, by simp, rfl⟩
      · exact Or.inl (List.mem_cons_of_mem a hw2)
    | succ j =>
      rcases List.mem_cons.mp hw with rfl | hw2
      · exact Or.inl (List.mem_cons_self _ _)
      · rcases ih j w hw2 with h | ⟨v, hv, rfl⟩
        · exact Or.inl (List.mem_cons_of_mem a h)
        · exact Or.inr ⟨v, by simpa using hv, rfl⟩

/-- A closed War whose keys are both set has its end at or after its start. -/
def closedOk (w : WarRow) : Prop :=
  w.status = "closed" → ∀ sk ek, w.startKey = some sk → w.endKey = some ek →
    dayLe sk ek = true

/-- Every open war is still active and, when dated, started no later than
the sort key of any of the remaining events. -/
def OpenBound (evs : List WarEvent) (s : WarState) : Prop :=
  ∀ i ∈ s.openIdx, ∀ w, s.wars[i]? = some w →
    w.status = "active" ∧
    ∀ sk, w.startKey = some sk → ∀ f ∈ evs, dayLe sk (eventSortKey f).1 = true

theorem closedOk_of_keys {v w : WarRow} (hk : warKeys w = warKeys v) (h : closedOk v) :
    closedOk w := by
  unfold warKeys at hk
  rw [Prod.mk.injEq, Prod.mk.injEq] at hk
  intro hst sk ek h1 h2
  exact h (hk.2.2 ▸ hst) sk ek (hk.1 ▸ h1) (hk.2.1 ▸ h2)

theorem declareRow_status (s : WarState) (e : WarEvent) :
    (declareRow s e).status = "active" := by
  simp [declareRow]

theorem declareRow_startKey (s : WarState) (e : WarEvent) :
    (declareRow s e).startKey = e.dayKey := by
  simp [declareRow]

/-- One step of the event loop preserves the closed-war key ordering, given
that the open wars started no later than the current event. -/
theorem warStep_closedOk (s : WarState) (e : WarEvent)
    (hw : ∀ w ∈ s.wars, closedOk w)
    (ho : OpenBound [e] s) :
    ∀ w ∈ (warStep s e).wars, closedOk w := by
  rcases classifyWarEvent_cases e.summary with hc | hc | hc | hc | hc
  · rw [warStep_eq_none s e hc]
    exact hw
  · rw [warStep_eq_declare s e hc]
    intro w hwmem
    rcases List.mem_append.mp hwmem with h | h
    · exact hw w h
    · have hw2 : w = declareRow s e := by simpa using h
      subst hw2
      intro hst
      rw [declareRow_status] at hst
      exact absurd hst (by decide)
  · rw [warStep_eq_end s e hc]
    cases hf : findOpenWar s.wars s.openIdx (endOppKingdom e) (endOppName e) with
    | none => exact hw
    | some i =>
      intro w hwmem
      dsimp only at hwmem
      rcases mem_updateAt (closeRow e) i s.wars w hwmem with h | ⟨v, hv, rfl⟩
      · exact hw w h
      · have hmem : i ∈ s.openIdx := findOpenWar_mem _ _ _ _ i hf
        obtain ⟨hact, hbound⟩ := ho i hmem v hv
        intro _ sk ek hsk hek
        have hsk2 : v.startKey = some sk := by
          rw [← closeRow_startKey e v]
          exact hsk
        have hek2 : e.dayKey = some ek := hek
        have hres := hbound sk hsk2 e (List.mem_singleton.mpr rfl)
        rw [show (eventSortKey e).1 = ek from by simp [eventSortKey, hek2]] at hres
        exact hres
  · rw [warStep_eq_pwstart s e hc]
    cases hm : matchPostwarExpiry e.summary with
    | none => exact hw
    | some x =>
      cases hl : lastIdxSat (fun w => w.status = "closed" ∧ w.postwarExpires = []) s.wars with
      | none => exact hw
      | some i =>
        intro w hwmem
        dsimp only at hwmem
        rcases mem_updateAt (pwStartFn (pyStrip isWs x)) i s.wars w hwmem with h | ⟨v, hv, rfl⟩
        · exact hw w h
        · exact closedOk_of_keys (pwStartFn_keys _ v) (hw v (List.getElem?_mem hv))
  · rw [warStep_eq_pwend s e hc]
    cases hl : lastIdxSat (fun w => w.postwarExpires ≠ [] ∧ w.postwarEndDay = []) s.wars with
    | none => exact hw
    | some i =>
      intro w hwmem
      dsimp only at hwmem
      rcases mem_updateAt (pwEndFn e.eventTimeText) i s.wars w hwmem with h | ⟨v, hv, rfl⟩
      · exact hw w h
      · exact closedOk_of_keys (pwEndFn_keys _ v) (hw v (List.getElem?_mem hv))

/-- One step of the event loop preserves the open-war bound with respect to
all later events. -/
theorem warStep_openBound (evs : List WarEvent) (s : WarState) (e : WarEvent)
    (ho : OpenBound evs s)
    (hef : ∀ f ∈ evs, eventLe e f = true) :
    OpenBound evs (warStep s e) := by
  have hdecl : ∀ (w : WarRow), w = declareRow s e →
      w.status = "active" ∧
      ∀ sk, w.startKey = some sk → ∀ f ∈ evs, dayLe sk (eventSortKey f).1 = true := by
    intro w hw
    subst hw
    refine ⟨declareRow_status s e, ?_⟩
    intro sk hsk f hf
    rw [declareRow_startKey] at hsk
    have hres := eventLe_key e f (hef f hf)
    rw [show (eventSortKey e).1 = sk from by simp [eventSortKey, hsk]] at hres
    exact hres
  rcases classifyWarEvent_cases e.summary with hc | hc | hc | hc | hc
  · rw [warStep_eq_none s e hc]
    exact ho
  · rw [warStep_eq_declare s e hc]
    intro i hi w hwi
    dsimp only at hi hwi
    by_cases hlen : i < s.wars.length
    · rw [List.getElem?_append, if_pos hlen] at hwi
      rcases List.mem_append.mp hi with hiold | hinew
      · exact ho i hiold w hwi
      · have : i = s.wars.length := by simpa using hinew
        omega
    · rw [List.getElem?_append_right (Nat.le_of_not_lt hlen)] at hwi
      by_cases hieq : i = s.wars.length
      · subst hieq
        simp only [Nat.sub_self] at hwi
        have hw2 : w = declareRow s e := by simpa using hwi.symm
        exact hdecl w hw2
      · have h1 : 1 ≤ i - s.wars.length := by omega
        rw [List.getElem?_eq_none (by simpa using h1)] at hwi
        cases hwi
  · rw [warStep_eq_end s e hc]
    cases hf : findOpenWar s.wars s.openIdx (endOppKingdom e) (endOppName e) with
    | none => exact ho
    | some j =>
      intro i hi w hwi
      dsimp only at hi hwi
      have hij : i ≠ j := by simpa using List.of_mem_filter hi
      have hiold : i ∈ s.openIdx := List.mem_of_mem_filter hi
      rw [updateAt_getElem?, if_neg hij] at hwi
      exact ho i hiold w hwi
  · rw [warStep_eq_pwstart s e hc]
    cases hm : matchPostwarExpiry e.summary with
    | none => exact ho
    | some x =>
      cases hl : lastIdxSat (fun w => w.status = "closed" ∧ w.postwarExpires = []) s.wars with
      | none => exact ho
      | some j =>
        intro i hi w hwi
        dsimp only at hi hwi
        rw [updateAt_getElem?] at hwi
        by_cases hij : i = j
        · rw [if_pos hij] at hwi
          cases hv : s.wars[i]? with
          | none => rw [hv] at hwi; cases hwi
          | some v =>
            rw [hv] at hwi
            have hw2 : w = pwStartFn (pyStrip isWs x) v := by simpa using hwi.symm
            subst hw2
            obtain ⟨h1, h2⟩ := ho i hi v hv
            exact ⟨h1, h2⟩
        · rw [if_neg hij] at hwi
          exact ho i hi w hwi
  · rw [warStep_eq_pwend s e hc]
    cases hl : lastIdxSat (fun w => w.postwarExpires ≠ [] ∧ w.postwarEndDay = []) s.wars with
    | none => exact ho
    | some j =>
      intro i hi w hwi
      dsimp only at hi hwi
      rw [updateAt_getElem?] at hwi
      by_cases hij : i = j
      · rw [if_pos hij] at hwi
        cases hv : s.wars[i]? with
        | none => rw [hv] at hwi; cases hwi
        | some v =>
          rw [hv] at hwi
          have hw2 : w = pwEndFn e.eventTimeText v := by simpa using hwi.symm
          subst hw2
          obtain ⟨h1, h2⟩ := ho i hi v hv
          exact ⟨h1, h2⟩
      · rw [if_neg hij] at hwi
        exact ho i hi w hwi

/-- Over a sorted event stream, all produced wars keep the closed-war key
ordering. -/
theorem foldl_warStep_closedOk :
    ∀ (evs : List WarEvent) (s : WarState),
      evs.Pairwise (fun a b => eventLe a b = true) →
      (∀ w ∈ s.wars, closedOk w) →
      OpenBound evs s →
      ∀ w ∈ (evs.foldl warStep s).wars, closedOk w := by
  intro evs
  induction evs with
  | nil =>
    intro s _ hw _
    simpa using hw
  | cons e evs ih =>
    intro s hp hw ho
    rw [List.foldl_cons]
    rw [List.pairwise_cons] at hp
    refine ih (warStep s e) hp.2 ?_ ?_
    · refine warStep_closedOk s e hw ?_
      intro i hi w hwi
      obtain ⟨h1, h2⟩ := ho i hi w hwi
      refine ⟨h1, fun sk hsk f hf => ?_⟩
      have : f = e := by simpa using hf
      subst this
      exact h2 sk hsk f (List.mem_cons_self _ _)
    · refine warStep_openBound evs s e ?_ hp.1
      intro i hi w hwi
      obtain ⟨h1, h2⟩ := ho i hi w hwi
      exact ⟨h1, fun sk hsk f hf => h2 sk hsk f (List.mem_cons_of_mem e hf)⟩

/-- Decomposition of build_war_rows membership down to the event fold, with
identical start/end/status fields. -/
theorem buildWarRows_mem (events : List WarEvent) (attacks : List AttackRecord)
    (home : Option (List Char)) (w : WarRow)
    (hw : w ∈ buildWarRows events attacks home) :
    ∃ w0 ∈ ((insertionSortBy eventLe events).foldl warStep initWarState).wars,
      warKeys w = warKeys w0 := by
  unfold buildWarRows at hw
  dsimp only at hw
  have hw2 := (insertionSortBy_perm warGe _).mem_iff.mp hw
  rcases List.mem_map.mp hw2 with ⟨w1, hw1, rfl⟩
  cases home with
  | none => exact ⟨w1, hw1, finalizeWar_keys w1⟩
  | some hk =>
    dsimp only at hw1
    by_cases hk0 : hk = []
    · rw [if_pos hk0] at hw1
      exact ⟨w1, hw1, finalizeWar_keys w1⟩
    · rw [if_neg hk0] at hw1
      rcases List.mem_map.mp hw1 with ⟨w0, hw0, rfl⟩
      refine ⟨w0, hw0, ?_⟩
      rw [finalizeWar_keys, attributeWar_keys]

/-- Provenance of a null start_key: only an event with an unparseable day can
produce one. -/
theorem foldl_warStep_startKey (C : Prop) :
    ∀ (evs : List WarEvent) (s : WarState),
      (∀ w ∈ s.wars, w.startKey = Option.none → C) →
      (∀ e ∈ evs, e.dayKey = Option.none → C) →
      ∀ w ∈ (evs.foldl warStep s).wars, w.startKey = Option.none → C := by
  intro evs
  induction evs with
  | nil =>
    intro s hw _
    simpa using hw
  | cons e evs ih =>
    intro s hw hev
    rw [List.foldl_cons]
    refine ih (warStep s e) ?_ (fun f hf => hev f (List.mem_cons_of_mem e hf))
    rcases classifyWarEvent_cases e.summary with hc | hc | hc | hc | hc
    · rw [warStep_eq_none s e hc]
      exact hw
    · rw [warStep_eq_declare s e hc]
      intro w hwm hsk
      rcases List.mem_append.mp hwm with h | h
      · exact hw w h hsk
      · have hw2 : w = declareRow s e := by simpa using h
        subst hw2
        rw [declareRow_startKey] at hsk
        exact hev e (List.mem_cons_self _ _) hsk
    · rw [warStep_eq_end s e hc]
      cases hf : findOpenWar s.wars s.openIdx (endOppKingdom e) (endOppName e) with
      | none => exact hw
      | some i =>
        intro w hwm hsk
        dsimp only at hwm
        rcases mem_updateAt (closeRow e) i s.wars w hwm with h | ⟨v, hv, rfl⟩
        · exact hw w h hsk
        · refine hw v (List.getElem?_mem hv) ?_
          rw [← closeRow_startKey e v]
          exact hsk
    · rw [warStep_eq_pwstart s e hc]
      cases hm : matchPostwarExpiry e.summary with
      | none => exact hw
      | some x =>
        cases hl : lastIdxSat (fun w => w.status = "closed" ∧ w.postwarExpires = []) s.wars with
        | none => exact hw
        | some i =>
          intro w hwm hsk
          dsimp only at hwm
          rcases mem_updateAt (pwStartFn (pyStrip isWs x)) i s.wars w hwm with h | ⟨v, hv, rfl⟩
          · exact hw w h hsk
          · exact hw v (List.getElem?_mem hv) hsk
    · rw [warStep_eq_pwend s e hc]
      cases hl : lastIdxSat (fun w => w.postwarExpires ≠ [] ∧ w.postwarEndDay = []) s.wars with
      | none => exact hw
      | some i =>
        intro w hwm hsk
        dsimp only at hwm
        rcases mem_updateAt (pwEndFn e.eventTimeText) i s.wars w hwm with h | ⟨v, hv, rfl⟩
        · exact hw w h hsk
        · exact hw v (List.getElem?_mem hv) hsk

/-- C4 (amended): whenever a War produced by build_war_rows is closed and
both its keys are set, end_key is at or after start_key; start_key can be
null only when some event of the stream has an unparseable day text (the
claim "start_key is never null" fails for undated declare events). -/
theorem war_keys_invariant (events : List WarEvent) (attacks : List AttackRecord)
    (home : Option (List Char)) :
    (∀ w ∈ buildWarRows events attacks home,
      w.status = "closed" → ∀ sk ek, w.startKey = some sk → w.endKey = some ek →
        dayLe sk ek = true) ∧
    (∀ w ∈ buildWarRows events attacks home,
      w.startKey = Option.none → ∃ e ∈ events, e.dayKey = Option.none) := by
  have hsorted := insertionSortBy_pairwise eventLe eventLe_trans eventLe_total events
  constructor
  · intro w hw
    obtain ⟨w0, hw0, hkeys⟩ := buildWarRows_mem events attacks home w hw
    have hclosed := foldl_warStep_closedOk (insertionSortBy eventLe events) initWarState
      hsorted (by intro v hv; cases hv) (by intro i hi; cases hi) w0 hw0
    exact closedOk_of_keys hkeys hclosed
  · intro w hw hsk
    obtain ⟨w0, hw0, hkeys⟩ := buildWarRows_mem events attacks home w hw
    have hsk0 : w0.startKey = Option.none := by
      unfold warKeys at hkeys
      rw [Prod.mk.injEq] at hkeys
      rw [← hkeys.1]
      exact hsk
    refine foldl_warStep_startKey (∃ e ∈ events, e.dayKey = Option.none)
      (insertionSortBy eventLe events) initWarState
      (by intro v hv; cases hv) ?_ w0 hw0 hsk0
    intro f hf hfd
    exact ⟨f, (insertionSortBy_perm eventLe events).mem_iff.mp hf, hfd⟩

set_option maxRecDepth 40000 in
/-- C4 amended witness: the key ordering applied through the theorem at the
concrete closed war of the two-front scenario. -/
theorem war_keys_invariant_witness :
    dayLe (1, 1, 2) (1, 1, 3) = true := by
  obtain ⟨w, hmem, hst, hsk, hek⟩ : ∃ w ∈ buildWarRows c2events [] Option.none,
      w.status = "closed" ∧ w.startKey = some (1, 1, 2) ∧ w.endKey = some (1, 1, 3) := by
    decide
  exact (war_keys_invariant c2events [] Option.none).1 w hmem hst (1, 1, 2) (1, 1, 3) hsk hek

theorem lookup_map_replace (c : List (List Char × CacheEntry)) (key : List Char)
    (e : CacheEntry) (h : (c.find? (fun pr => pr.1 = key)).isSome = true) :
    cacheLookup (c.map (fun pr => if pr.1 = key then (pr.1, e) else pr)) key = some e := by
  induction c with
  | nil => simp at h
  | cons p c ih =>
    unfold cacheLookup
    rw [List.map_cons]
    by_cases hp : p.1 = key
    · rw [if_pos hp, List.find?_cons_of_pos _ (by simpa using hp)]
      rfl
    · rw [if_neg hp, List.find?_cons_of_neg _ (by simpa using hp)]
      refine ih ?_
      rw [List.find?_cons_of_neg _ (by simpa using hp)] at h
      exact h

theorem lookup_append_single (c : List (List Char × CacheEntry)) (key : List Char)
    (e : CacheEntry) (h : c.find? (fun pr => pr.1 = key) = Option.none) :
    cacheLookup (c ++ [(key, e)]) key = some e := by
  induction c with
  | nil => simp [cacheLookup, List.find?]
  | cons p c ih =>
    unfold cacheLookup
    rw [List.cons_append]
    by_cases hp : p.1 = key
    · rw [List.find?_cons_of_pos _ (by simpa using hp)] at h
      cases h
    · rw [List.find?_cons_of_neg _ (by simpa using hp)]
      rw [List.find?_cons_of_neg _ (by simpa using hp)] at h
      exact ih h

theorem cacheLookup_insert (c : List (List Char × CacheEntry)) (key : List Char)
    (e : CacheEntry) : cacheLookup (cacheInsert c key e) key = some e := by
  unfold cacheInsert
  by_cases h : (c.find? (fun pr => pr.1 = key)).isSome
  · rw [if_pos h]
    exact lookup_map_replace c key e h
  · rw [if_neg h]
    refine lookup_append_single c key e ?_
    cases hf : c.find? (fun pr => pr.1 = key) with
    | none => rfl
    | some x =>
      rw [hf] at h
      simp at h

set_option maxRecDepth 2000 in
/-- C9: cache_get misses and evicts on a stale token or an expired entry;
a fresh hit returns a deep copy of the stored value without touching the
cache; values are deep-copied on both cache_set and cache_get, so mutating
the object passed to cache_set, or the object returned by cache_get, never
changes what a later cache_get returns. -/
theorem cache_get_set_semantics :
    (∀ (st : CacheState) (key token : List Char) (now : Int) (e : CacheEntry),
      cacheLookup st.cache key = some e → e.token ≠ token →
      cacheGet st key token now =
        (Option.none, { st with cache := cacheErase st.cache key })) ∧
    (∀ (st : CacheState) (key token : List Char) (now : Int) (e : CacheEntry),
      cacheLookup st.cache key = some e → e.token = token → e.expires < now →
      cacheGet st key token now =
        (Option.none, { st with cache := cacheErase st.cache key })) ∧
    (∀ (st : CacheState) (key token : List Char) (now : Int) (e : CacheEntry),
      cacheLookup st.cache key = some e → e.token = token → ¬ e.expires < now →
      e.value < st.heap.length →
      (cacheGet st key token now).2.cache = st.cache ∧
      cacheGetValue st key token now = heapRead st e.value) ∧
    (∀ (st : CacheState) (key : List Char) (a : Addr) (token : List Char)
      (now ttl now2 : Int) (wv : CVal),
      a < st.heap.length → ¬ now + ttl < now2 →
      cacheGetValue (heapWrite (cacheSet st key a token now ttl) a wv) key token now2 =
        heapRead st a) ∧
    (∀ (st : CacheState) (key token : List Char) (now : Int) (e : CacheEntry)
      (a1 : Addr) (st1 : CacheState) (wv : CVal),
      cacheLookup st.cache key = some e → e.token = token → ¬ e.expires < now →
      e.value < st.heap.length →
      cacheGet st key token now = (some a1, st1) →
      cacheGetValue (heapWrite st1 a1 wv) key token now = heapRead st e.value) := by
  have hget_fresh : ∀ (st : CacheState) (key token : List Char) (now : Int) (e : CacheEntry),
      cacheLookup st.cache key = some e → e.token = token → ¬ e.expires < now →
      cacheGet st key token now =
        (some st.heap.length,
         { st with heap := st.heap ++ [(st.heap[e.value]?).getD 0] }) := by
    intro st key token now e hl htok hexp
    unfold cacheGet
    rw [hl]
    dsimp only
    rw [if_neg (not_not_intro htok), if_neg hexp]
    rfl
  refine ⟨?_, ?_, ?_, ?_, ?_⟩
  · intro st key token now e hl htok
    unfold cacheGet
    rw [hl]
    dsimp only
    rw [if_pos htok]
  · intro st key token now e hl htok hexp
    unfold cacheGet
    rw [hl]
    dsimp only
    rw [if_neg (not_not_intro htok), if_pos hexp]
  · intro st key token now e hl htok hexp hval
    unfold cacheGetValue
    rw [hget_fresh st key token now e hl htok hexp]
    dsimp only
    refine ⟨rfl, ?_⟩
    unfold heapRead
    dsimp only
    rw [List.getElem?_concat_length]
    cases hv : st.heap[e.value]? with
    | none =>
      have h2 := List.getElem?_eq_none_iff.mp hv
      exact absurd h2 (Nat.not_le.mpr hval)
    | some v => rfl
  · intro st key a token now ttl now2 wv ha hfresh
    have hne : a ≠ st.heap.length := Nat.ne_of_lt ha
    have hlook : cacheLookup (heapWrite (cacheSet st key a token now ttl) a wv).cache key =
        some ⟨token, now + ttl, st.heap.length⟩ :=
      cacheLookup_insert st.cache key _
    unfold cacheGetValue
    rw [hget_fresh (heapWrite (cacheSet st key a token now ttl) a wv) key token now2 _
      hlook rfl (by simpa using hfresh)]
    dsimp only
    unfold heapRead
    dsimp only
    rw [List.getElem?_concat_length]
    have h1 : (heapWrite (cacheSet st key a token now ttl) a wv).heap[st.heap.length]? =
        some ((st.heap[a]?).getD 0) := by
      show ((st.heap ++ [(st.heap[a]?).getD 0]).set a wv)[st.heap.length]? = _
      rw [List.getElem?_set_ne hne, List.getElem?_concat_length]
    rw [h1]
    cases hv : st.heap[a]? with
    | none =>
      have h2 := List.getElem?_eq_none_iff.mp hv
      exact absurd h2 (Nat.not_le.mpr ha)
    | some v => rfl
  · intro st key token now e a1 st1 wv hl htok hexp hval hget
    rw [hget_fresh st key token now e hl htok hexp] at hget
    rw [Prod.mk.injEq, Option.some.injEq] at hget
    obtain ⟨ha1, hst1⟩ := hget
    subst ha1
    subst hst1
    have hne : e.value ≠ st.heap.length := Nat.ne_of_lt hval
    have hlook2 : cacheLookup (heapWrite
        { st with heap := st.heap ++ [(st.heap[e.value]?).getD 0] } st.heap.length wv).cache
        key = some e := hl
    unfold cacheGetValue
    rw [hget_fresh _ key token now e hlook2 htok hexp]
    dsimp only
    unfold heapRead
    dsimp only
    rw [List.getElem?_concat_length]
    have h1 : (heapWrite { st with heap := st.heap ++ [(st.heap[e.value]?).getD 0] }
        st.heap.length wv).heap[e.value]? = st.heap[e.value]? := by
      show ((st.heap ++ [(st.heap[e.value]?).getD 0]).set st.heap.length wv)[e.value]? = _
      rw [List.getElem?_set_ne (Ne.symm hne), List.getElem?_append, if_pos hval]
    rw [h1]
    cases hv : st.heap[e.value]? with
    | none =>
      have h2 := List.getElem?_eq_none_iff.mp hv
      exact absurd h2 (Nat.not_le.mpr hval)
    | some v => rfl

/-- C9 witness: a complete set/mutate/get round trip at concrete values
through the theorem. -/
theorem cache_get_set_semantics_witness :
    cacheGetValue
      (heapWrite (cacheSet ⟨[7], []⟩ "k".toList 0 "t".toList 100 15) 0 99)
      "k".toList "t".toList 110 = some 7 := by
  have h := (cache_get_set_semantics).2.2.2.1 ⟨[7], []⟩ "k".toList 0 "t".toList
    100 15 110 99 (by decide) (by decide)
  rw [h]
  rfl

end Utopia


